import Mathlib

/-!
Verification of the transaction-normalization pipeline of the ebay-analytics
repository, as a shallow embedding in Lean 4.

The repository manipulates pandas DataFrames.  The embedding models

* a DataFrame cell as `Cell`: a raw string, a parsed datetime, an exact
  fixed-point decimal number `num m e` denoting `m / 10 ^ e` (Python floats
  arising here are exact decimals, so the representation is faithful for
  the data in scope and keeps every definition kernel-computable), or the
  canonical absent marker (pandas `NaN`/`None`/`NaT`);
* a DataFrame as `Frame`: a header (list of column labels) plus a list of
  rows, each row a list of cells aligned with the header;
* a raised / propagated Python exception as the `Except.error` branch of
  `Except String`.

Every operation is translated from the Python sources
(`hoold.py`, `gen_dash_app_1.py`, `calculate_payout.py`, `app/app.py`,
`ebay_sql_dash_app/ebay_sql_query.py`); the translation points to the
originating lines in the doc comments.
-/

/-- A parsed datetime value, as produced by `pd.to_datetime`.
`parsed s` is a timestamp obtained from the source string `s`;
`epoch m e` is a timestamp obtained from a numeric cell (epoch offset
`m / 10 ^ e`), which `pd.to_datetime` accepts as well. -/
inductive DateVal where
  | parsed : String → DateVal
  | epoch : ℤ → ℕ → DateVal
deriving DecidableEq, Repr

/-- One cell of a DataFrame.  `num m e` is the exact decimal `m / 10 ^ e`
(Python float values in this pipeline are parsed decimal literals, which are
exact in this form).  `absent` is the canonical missing marker, standing for
pandas `NaN` / `None` / `NaT`. -/
inductive Cell where
  | str : String → Cell
  | num : ℤ → ℕ → Cell
  | date : DateVal → Cell
  | absent : Cell
deriving DecidableEq, Repr

/-- The rational number denoted by the fixed-point decimal `num m e`. -/
def decToRat (m : ℤ) (e : ℕ) : ℚ := (m : ℚ) / 10 ^ e

/-- Exact addition of fixed-point decimals (the addition performed on the
Python floats of the pipeline, which are exact decimals). -/
def addDec (a b : ℤ × ℕ) : ℤ × ℕ :=
  (a.1 * 10 ^ (max a.2 b.2 - a.2) + b.1 * 10 ^ (max a.2 b.2 - b.2), max a.2 b.2)

/-- Sum of a list of fixed-point decimals, starting from `0` (pandas sums
start from `0`, so the empty/all-absent sum is `0`). -/
def sumDec (l : List (ℤ × ℕ)) : ℤ × ℕ := l.foldl addDec (0, 0)

/-- The numeric content of a cell, if any (used by pandas `skipna` sums:
absent cells are skipped). -/
def cellDec : Cell → Option (ℤ × ℕ)
  | .num m e => some (m, e)
  | _ => none

/-- Zero-fill view of a cell: the numeric content, with absent (and any
non-numeric) cell valued at zero. -/
def fillZeroDec : Cell → ℤ × ℕ
  | .num m e => (m, e)
  | _ => (0, 0)

/-- A DataFrame: a header of column labels and rows of cells.  A well-formed
frame (`Frame.WF`) is rectangular, as every pandas DataFrame is. -/
structure Frame where
  cols : List String
  rows : List (List Cell)
deriving DecidableEq, Repr

/-- Rectangularity: every row has exactly one cell per column.  Pandas
DataFrames are rectangular by construction. -/
def Frame.WF (f : Frame) : Prop :=
  ∀ r ∈ f.rows, r.length = f.cols.length

instance (f : Frame) : Decidable f.WF := by
  unfold Frame.WF; infer_instance

/-- Cell of a row at a column position; out-of-range reads give the absent
marker (never exercised on well-formed frames). -/
def getCell (r : List Cell) (i : ℕ) : Cell := r.getD i Cell.absent

/-- Replace the cell of a row at a column position (no-op when out of
range, which does not happen on well-formed frames). -/
def setCell (r : List Cell) (i : ℕ) (c : Cell) : List Cell := r.set i c

/-- Position of a column label in a header, pandas label lookup
(`df[c]`): the first position carrying the label, `none` when the label is
absent (pandas raises `KeyError` there). -/
def colIdx? : List String → String → Option ℕ
  | [], _ => none
  | c :: cs, d => if c = d then some 0 else (colIdx? cs d).map (· + 1)

/-- Decimal digit characters `0`-`9`, value of one digit. -/
def digitVal (c : Char) : ℕ := c.toNat - '0'.toNat

/-- Value of a digit string read left to right (the usual decimal reading;
used both to parse numbers and to prove the decimal renderer injective). -/
def digitsVal (l : List Char) : ℕ := l.foldl (fun a c => 10 * a + digitVal c) 0

/-- Fuelled decimal rendering of a natural number, little helper for
`natChars`; structural recursion so that the kernel can evaluate it. -/
def natCharsGo : ℕ → ℕ → List Char
  | 0, n => [Nat.digitChar n]
  | fuel + 1, n =>
    if n < 10 then [Nat.digitChar n]
    else natCharsGo fuel (n / 10) ++ [Nat.digitChar (n % 10)]

/-- Decimal rendering of a natural number, the embedding of Python's
`str(int)` (used by f-strings such as `f"{base_name}_{counter}"`). -/
def natChars (n : ℕ) : List Char := natCharsGo n n

/-- Python `str(int)` as a Lean `String`. -/
def pyStrNat (n : ℕ) : String := String.mk (natChars n)

/-- Keep only digits, `.` and `-`: the embedding of
`.str.replace(r'[^\d.-]', '', regex=True)`
(`hoold.py` line 197, `gen_dash_app_1.py` line 263). -/
def stripNonNum (l : List Char) : List Char :=
  l.filter (fun c => c.isDigit || c == '.' || c == '-')

/-- Parse an unsigned decimal literal: digits, optionally one dot, at least
one digit overall — the strings accepted by Python `float` after the
formatting characters have been stripped.  The result is the exact
fixed-point decimal. -/
def parseUnsigned (l : List Char) : Option (ℤ × ℕ) :=
  let ip := (l.span Char.isDigit).1
  let rest := (l.span Char.isDigit).2
  match rest with
  | [] => if ip = [] then none else some ((digitsVal ip : ℤ), 0)
  | '.' :: rest2 =>
    let fp := (rest2.span Char.isDigit).1
    if (rest2.span Char.isDigit).2 = [] ∧ ¬(ip = [] ∧ fp = []) then
      some ((digitsVal ip * 10 ^ fp.length + digitsVal fp : ℤ), fp.length)
    else none
  | _ => none

/-- Parse a decimal literal with an optional leading minus sign, as
`pd.to_numeric` does on the stripped string; `none` models the
`errors='coerce'` outcome `NaN`. -/
def parseDec (l : List Char) : Option (ℤ × ℕ) :=
  match l with
  | '-' :: body => (parseUnsigned body).map (fun p => (-p.1, p.2))
  | body => parseUnsigned body

/-- Numeric coercion of one cell:
`pd.to_numeric(col.astype(str).str.replace(r'[^\d.-]', '', regex=True), errors='coerce')`
(`hoold.py` line 197, `gen_dash_app_1.py` lines 262-264).
A string cell goes through strip-then-parse; a numeric cell is unchanged
(`str(float)` round-trips through the strip and the parse); an absent cell
stays absent (`str(nan) = "nan"` strips to `""`, which does not parse); a
datetime cell renders with `-` separators inside, fails the parse, and
coerces to `NaN`. -/
def coerceNum : Cell → Cell
  | .str s =>
    match parseDec (stripNonNum s.data) with
    | some p => .num p.1 p.2
    | none => .absent
  | .num m e => .num m e
  | .date _ => .absent
  | .absent => .absent

/-- `gen_dash_app_1.py` line 265 appends `.fillna(0)` to the numeric
coercion: absent results become the real number `0`. -/
def coerceFill0 (c : Cell) : Cell :=
  match coerceNum c with
  | .absent => .num 0 0
  | v => v

/-- `replace('--', None)` on one cell (`hoold.py` line 200,
`gen_dash_app_1.py` line 268). -/
def dropDash (c : Cell) : Cell := if c = .str "--" then .absent else c

/-- `fillna('--')` on one cell (`hoold.py` line 212,
`gen_dash_app_1.py` lines 280-291). -/
def fillDash (c : Cell) : Cell := if c = .absent then .str "--" else c

/-- `pd.to_datetime` on one cell, parameterised by the string-level date
format reader `dp` (pandas' actual format inference): a string cell parses
or raises, a datetime cell is returned unchanged, `NaN` becomes `NaT`
(identified with the absent marker), a numeric cell is an epoch offset. -/
def toDatetime (dp : String → Option DateVal) : Cell → Except String Cell
  | .str s =>
    match dp s with
    | some d => .ok (.date d)
    | none => .error ("date parse: " ++ s)
  | .date d => .ok (.date d)
  | .num m e => .ok (.date (.epoch m e))
  | .absent => .ok .absent

/-- A concrete instance of the date reader: ISO `YYYY-MM-DD` prefixes.
`pd.to_datetime` accepts more formats; every claim below only needs that
ISO dates parse and that a plain alphabetic string such as `"abc"` does
not, which holds of pandas as well. -/
def isoDate (s : String) : Option DateVal :=
  match s.data with
  | a :: b :: c :: d :: '-' :: e :: f :: '-' :: g :: h :: _ =>
    if a.isDigit && b.isDigit && c.isDigit && d.isDigit
        && e.isDigit && f.isDigit && g.isDigit && h.isDigit then
      some (.parsed s)
    else none
  | _ => none

-- Decidable equality of raised-or-returned results, for concrete
-- evaluation of the embedded operations.
deriving instance DecidableEq for Except

/-- Success test for an `Except` value. -/
def isOkE {ε α : Type} : Except ε α → Bool
  | .ok _ => true
  | .error _ => false

/-- Value of a succeeding `Except`, with the input returned on the error
branch (only used under a proof that the branch is not taken). -/
def applyE (g : Cell → Except String Cell) (c : Cell) : Cell :=
  match g c with
  | .ok v => v
  | .error _ => c

/-- Error-propagating map over a list, the embedding of a pandas
column-wise operation that can raise on a cell: the first raising cell
aborts the whole operation. -/
def mapE {α β : Type} (g : α → Except String β) : List α → Except String (List β)
  | [] => .ok []
  | a :: as =>
    match g a with
    | .error e => .error e
    | .ok b =>
      match mapE g as with
      | .error e => .error e
      | .ok bs => .ok (b :: bs)

/-- Pointwise update of a row at one column position. -/
def updAt (i : ℕ) (g : Cell → Cell) (r : List Cell) : List Cell :=
  setCell r i (g (getCell r i))

/-- `df[c] = df[c].map(g)`-style total column transform: raises `KeyError`
when the label is missing, otherwise rewrites the column pointwise. -/
def Frame.mapCol (f : Frame) (c : String) (g : Cell → Cell) : Except String Frame :=
  match colIdx? f.cols c with
  | none => .error ("KeyError: " ++ c)
  | some i => .ok ⟨f.cols, f.rows.map (updAt i g)⟩

/-- One row of a raising column transform: apply the per-cell operation
at position `i`, propagating its raise. -/
def rowStepE (g : Cell → Except String Cell) (i : ℕ) (r : List Cell) :
    Except String (List Cell) :=
  match g (getCell r i) with
  | .error e => .error e
  | .ok v => .ok (setCell r i v)

/-- Body of the raising column transform once the column position is
known. -/
def mapColECore (g : Cell → Except String Cell) (i : ℕ) (cols : List String)
    (rows : List (List Cell)) : Except String Frame :=
  match mapE (rowStepE g i) rows with
  | .error e => .error e
  | .ok rs => .ok ⟨cols, rs⟩

/-- Column transform whose per-cell operation can itself raise
(`pd.to_datetime` with the default `errors='raise'`): a missing label or a
raising cell aborts with an error and no partial frame is produced. -/
def Frame.mapColE (f : Frame) (c : String) (g : Cell → Except String Cell) :
    Except String Frame :=
  match colIdx? f.cols c with
  | none => .error ("KeyError: " ++ c)
  | some i => mapColECore g i f.cols f.rows

/-- Guarded column transform `if col in df.columns: df[col] = ...`
(`gen_dash_app_1.py` lines 260-265): missing columns are skipped. -/
def Frame.mapColIfPresent (f : Frame) (c : String) (g : Cell → Cell) : Frame :=
  match colIdx? f.cols c with
  | none => f
  | some i => ⟨f.cols, f.rows.map (updAt i g)⟩

/-- `df[c]`-style index lookup as a raising operation: the position of the
label, or a `KeyError`. -/
def Frame.colIdxE (f : Frame) (c : String) : Except String ℕ :=
  match colIdx? f.cols c with
  | some i => .ok i
  | none => .error ("KeyError: " ++ c)

/-- The first-non-null-per-key title reference of the `parse_contents`
normalizers (`hoold.py` lines 202-206, `gen_dash_app_1.py` lines 270-274):
`df[(df['Order number'].notna()) & (df['Item title'].notna())].groupby('Order number')['Item title'].first()`
viewed as a lookup: the title of the first row whose order cell equals `k`
(and is present) and whose title cell is present.  `oi`/`ti` are the
positions of the order / title columns. -/
def titleMap (rows : List (List Cell)) (oi ti : ℕ) (k : Cell) : Option Cell :=
  (rows.find? (fun r =>
      getCell r oi == k && !(getCell r oi == Cell.absent)
        && !(getCell r ti == Cell.absent))).map
    (fun r => getCell r ti)

/-- The title backfill
`df.loc[df['Order number'].notna(), 'Item title'] = df['Order number'].map(title_mapping)`
(`hoold.py` line 209, `gen_dash_app_1.py` line 277): every row whose order
cell is present gets its title cell overwritten by the mapped title
(`NaN` when the key misses the map); rows without an order are untouched.
The map is built fully from `rows` before any row is rewritten. -/
def backfillRows (rows : List (List Cell)) (oi ti : ℕ) : List (List Cell) :=
  rows.map (fun r =>
    if getCell r oi = Cell.absent then r
    else setCell r ti ((titleMap rows oi ti (getCell r oi)).getD Cell.absent))

/-- The columns `parse_contents` of `hoold.py` reads; the normalization
raises (is caught and surfaced as an error result) whenever one is
missing. -/
def hooldRequiredCols : List String :=
  ["Transaction creation date", "Net amount", "Item title", "Order number"]

/-- The transaction normalizer of `hoold.py`, `parse_contents` lines
194-212, acting on the decoded DataFrame: date parsing, numeric coercion of
`Net amount`, `'--'`→`None` on `Item title`, first-non-null title
reference, backfill, and `fillna('--')` on `Item title`.  The surrounding
`try`/`except` surfaces any raise as an error result with no partial
frame, which the `Except.error` branch models. -/
def normalizeH (dp : String → Option DateVal) (f : Frame) : Except String Frame := do
  let f1 ← f.mapColE "Transaction creation date" (toDatetime dp)
  let f2 ← f1.mapCol "Net amount" coerceNum
  let f3 ← f2.mapCol "Item title" dropDash
  let oi ← f3.colIdxE "Order number"
  let ti ← f3.colIdxE "Item title"
  (⟨f3.cols, backfillRows f3.rows oi ti⟩ : Frame).mapCol "Item title" fillDash

/-- The monetary columns of `gen_dash_app_1.py` (lines 250-258). -/
def genNumericCols : List String :=
  ["eBay collected tax", "Item price", "Quantity", "Item subtotal",
   "Shipping and handling", "Seller collected tax", "Discount",
   "Gross amount", "Final Value Fee - fixed", "Final Value Fee - variable",
   "Below standard performance fee", "Very high \"item not as described\" fee",
   "International fee", "Deposit processing fee", "Regulatory operating fee",
   "Promoted Listing Standard fee", "Charity donation", "Shipping labels",
   "Payment Dispute Fee", "Expenses", "Refunds", "Order earnings"]

/-- The metadata columns `gen_dash_app_1.py` fills with `'--'`
(lines 283-291). -/
def genFillDashCols : List String :=
  ["Order number", "Item ID", "Buyer name", "Ship to city",
   "Ship to province/region/state", "Ship to zip", "Ship to country",
   "Transaction currency", "Payout currency"]

/-- The fee columns summed into `Total Fees` (`gen_dash_app_1.py`
lines 294-299). -/
def genFeeCols : List String :=
  ["Final Value Fee - fixed", "Final Value Fee - variable",
   "Below standard performance fee", "Very high \"item not as described\" fee",
   "International fee", "Deposit processing fee", "Regulatory operating fee",
   "Promoted Listing Standard fee"]

/-- The guarded numeric-coercion loop of `gen_dash_app_1.py` lines
260-265: each declared monetary column, when present, is coerced and its
absent results replaced with `0`. -/
def applyNumericCols (f : Frame) : Frame :=
  genNumericCols.foldl (fun acc c => acc.mapColIfPresent c coerceFill0) f

/-- The `fillna('--')` block of `gen_dash_app_1.py` lines 283-291; each
access `df[c]` raises if the column is missing. -/
def applyFillDashCols : List String → Frame → Except String Frame
  | [], f => .ok f
  | c :: cs, f =>
    match f.mapCol c fillDash with
    | .error e => .error e
    | .ok f2 => applyFillDashCols cs f2

/-- Error-propagating map over a list in the `Option` monad (own
structural definition, used for multi-column index lookups `df[[...]]`). -/
def mapO {α β : Type} (g : α → Option β) : List α → Option (List β)
  | [] => some []
  | a :: as =>
    match g a with
    | none => none
    | some b => (mapO g as).map (fun bs => b :: bs)

/-- `df[new] = vals`: overwrite the column when the label exists, else
append it on the right (pandas column assignment). -/
def Frame.addCol (f : Frame) (c : String) (vals : List Cell) : Frame :=
  match colIdx? f.cols c with
  | some i => ⟨f.cols, (f.rows.zip vals).map (fun p => setCell p.1 i p.2)⟩
  | none => ⟨f.cols ++ [c], (f.rows.zip vals).map (fun p => p.1 ++ [p.2])⟩

/-- `df['Total Fees'] = df[fee_columns].sum(axis=1)` (`gen_dash_app_1.py`
line 301): per-row skipna sum of the fee cells; `df[fee_columns]` raises
when a fee column is missing. -/
def addTotalFees (f : Frame) : Except String Frame :=
  match mapO (colIdx? f.cols) genFeeCols with
  | none => .error "KeyError: fee column"
  | some idxs =>
    .ok (f.addCol "Total Fees" (f.rows.map (fun r =>
      Cell.num (sumDec (idxs.filterMap (fun i => cellDec (getCell r i)))).1
        (sumDec (idxs.filterMap (fun i => cellDec (getCell r i)))).2)))

/-- `str(int)` for integers (sign plus decimal digits). -/
def pyStrInt (m : ℤ) : String :=
  if m < 0 then String.mk ('-' :: natChars m.natAbs) else String.mk (natChars m.natAbs)

/-- `.dt.strftime('%Y-%m-%d %H:%M:%S')` on one cell (`gen_dash_app_1.py`
line 304): a parsed timestamp renders back to text (modelled by its stored
source string; the exact strftime text is display formatting), `NaT` maps
to `NaN`, and a non-datetime cell cannot be reached after the parse step. -/
def fmtDateCell : Cell → Except String Cell
  | .date (.parsed s) => .ok (.str s)
  | .date (.epoch m e) => .ok (.str ("epoch " ++ pyStrInt m ++ " " ++ pyStrNat e))
  | .absent => .ok .absent
  | _ => .error "strftime on non-datetime column"

/-- The transaction normalizer of `gen_dash_app_1.py`, `parse_contents`
lines 247-304, acting on the decoded DataFrame: date parsing, guarded
numeric coercion with zero fill, title reference and backfill as in
`hoold.py`, `fillna('--')` on nine metadata columns, the derived
`Total Fees` column, and the final date re-formatting. -/
def genNormalize (dp : String → Option DateVal) (f : Frame) : Except String Frame := do
  let f1 ← f.mapColE "Order creation date" (toDatetime dp)
  let f3 ← (applyNumericCols f1).mapCol "Item title" dropDash
  let oi ← f3.colIdxE "Order number"
  let ti ← f3.colIdxE "Item title"
  let f5 ← (⟨f3.cols, backfillRows f3.rows oi ti⟩ : Frame).mapCol "Item title" fillDash
  let f6 ← applyFillDashCols genFillDashCols f5
  let f7 ← addTotalFees f6
  f7.mapColE "Order creation date" fmtDateCell

/-- A ledger row projected to the fields `calculate_payout.py` uses for
its reference dict: record type, order number, item title. -/
structure LRow where
  typ : Cell
  order : Cell
  title : Cell
deriving DecidableEq, Repr

/-- Python `dict` insertion `m[k] = v`: overwrite the existing binding,
else append. -/
def dictInsert (m : List (Cell × Cell)) (k v : Cell) : List (Cell × Cell) :=
  if m.any (fun p => p.1 == k) then
    m.map (fun p => if p.1 = k then (k, v) else p)
  else m ++ [(k, v)]

/-- Python `dict` lookup `m[k]` (as an `Option`; `none` is the `KeyError`
case). -/
def dictGet? (m : List (Cell × Cell)) (k : Cell) : Option Cell :=
  (m.find? (fun p => p.1 == k)).map (fun p => p.2)

/-- The reference-dict construction of `calculate_payout.py` lines 16-20:
`ref = dict()` then `ref[order] = item` for each Order row in input order —
a later row with the same order number overwrites the earlier binding. -/
def buildRef (orders : List (Cell × Cell)) : List (Cell × Cell) :=
  orders.foldl (fun m p => dictInsert m p.1 p.2) []

/-- `orders = report[report['Type'] == 'Order']` followed by the dict loop
(`calculate_payout.py` lines 14-20). -/
def calcRef (rows : List LRow) : List (Cell × Cell) :=
  buildRef ((rows.filter (fun r => r.typ = Cell.str "Order")).map
    (fun r => (r.order, r.title)))

/-- `df[[...]]` column projection; raises when a requested label is
missing. -/
def Frame.selectCols (f : Frame) (cs : List String) : Except String Frame :=
  match mapO (colIdx? f.cols) cs with
  | none => .error "KeyError: column selection"
  | some idxs => .ok ⟨cs, f.rows.map (fun r => idxs.map (fun i => getCell r i))⟩

/-- `df.rename(columns={a: b})`. -/
def renameCols (f : Frame) (a b : String) : Frame :=
  ⟨f.cols.map (fun c => if c = a then b else c), f.rows⟩

/-- `df.replace('--', np.nan, inplace=True)` over the whole frame. -/
def replaceAllDash (f : Frame) : Frame :=
  ⟨f.cols, f.rows.map (List.map dropDash)⟩

/-- `transform` of `app/app.py` lines 8-38.  The first statement mutates
the caller's frame in place (`inplace=True`); the result of the call is the
pair (returned report or propagated raise, the caller's frame after the
call).  Notes kept from the source: line 22 filters on the lowercase
literal `'order'` while the record-type values are `'Order'`, so the
reference dict is always empty; in the backfill loop a missed lookup
raises `KeyError`, which is caught and leaves the row as it was.  The
positions 1, 2, 4 are the `type`, `order`, `title` columns of the
projected report. -/
def transform (df : Frame) : Except String Frame × Frame :=
  let dfM := replaceAllDash df
  match colIdx? dfM.cols "Type" with
  | none => (.error "KeyError: Type", dfM)
  | some tyi =>
    let rep0 : Frame := ⟨dfM.cols, dfM.rows.filter (fun r => getCell r tyi == Cell.str "Order")⟩
    match rep0.selectCols ["Transaction creation date", "Type", "Order number",
        "Net amount", "Item title", "Buyer username"] with
    | .error e => (.error e, dfM)
    | .ok rep1 =>
      let rep2 := renameCols (renameCols (renameCols (renameCols (renameCols (renameCols rep1
        "Transaction creation date" "date") "Type" "type") "Order number" "order")
        "Net amount" "net") "Item title" "title") "Buyer username" "buyer"
      let orders := rep2.rows.filter (fun r => getCell r 1 == Cell.str "order")
      let ref := buildRef (orders.map (fun r => (getCell r 2, getCell r 4)))
      let rows2 := rep2.rows.map (fun r =>
        if getCell r 4 == Cell.absent then
          match dictGet? ref (getCell r 2) with
          | some t => setCell r 4 t
          | none => r
        else r)
      (.ok ⟨rep2.cols, rows2⟩, dfM)

/-- The distinct non-absent group keys of a key/value column pair, in
first-occurrence order.  `df.groupby(k)` drops rows whose key is `NaN`
(`dropna=True`) and additionally sorts the keys, which no claim below
observes. -/
def uniqueKeysList (ps : List (Cell × Cell)) : List Cell :=
  (ps.map Prod.fst).foldl
    (fun acc k => if k = Cell.absent ∨ k ∈ acc then acc else acc ++ [k]) []

/-- `df.groupby(key)[val].sum()` (`calculate_payout.py` line 34,
`hoold.py` line 585): for each group, the skipna sum of the value cells of
the group's rows. -/
def groupbySum (ps : List (Cell × Cell)) : List (Cell × (ℤ × ℕ)) :=
  (uniqueKeysList ps).map (fun k =>
    (k, sumDec ((ps.filter (fun p => p.1 == k)).filterMap (fun p => cellDec p.2))))

/-- Lookup of a group's sum in the aggregation result. -/
def lookupGroup (gs : List (Cell × (ℤ × ℕ))) (k : Cell) : Option (ℤ × ℕ) :=
  (gs.find? (fun p => p.1 == k)).map (fun p => p.2)

/-- `result_df.empty` / the scalar and single-row shape tests of
`ebay_sql_query.py` lines 101-107. -/
def isScalarResult (f : Frame) : Bool := f.rows.length == 1 && f.cols.length == 1

/-- A single row with several columns (`ebay_sql_query.py` lines 105-107). -/
def isSingleRowResult (f : Frame) : Bool := f.rows.length == 1 && f.cols.length > 1

/-- `df.empty`: some axis has length 0. -/
def frameEmpty (f : Frame) : Bool := f.rows.length == 0 || f.cols.length == 0

/-- The result component shapes of `create_result_component`
(`ebay_sql_query.py` lines 109-159); the HTML/CSS presentation around the
payload is display formatting and is elided. -/
inductive Comp where
  | noResults : Comp
  | scalar : Cell → Comp
  | singleRow : List (String × Cell) → Comp
  | table : Frame → Comp
deriving DecidableEq, Repr

/-- `create_result_component` (`ebay_sql_query.py` lines 109-159). -/
def createResultComponent (f : Frame) : Comp :=
  if frameEmpty f then .noResults
  else if isScalarResult f then .scalar (getCell (f.rows.getD 0 []) 0)
  else if isSingleRowResult f then
    .singleRow (f.cols.map (fun c =>
      (c, getCell (f.rows.getD 0 []) ((colIdx? f.cols c).getD 0))))
  else .table f

/-- `df.head(n)`. -/
def Frame.head (f : Frame) (n : ℕ) : Frame := ⟨f.cols, f.rows.take n⟩

/-- The triple returned by the `run_query` callback: the results
container, the error display text, and the info line. -/
structure QueryOutput where
  results : Comp
  errorText : String
  info : String
deriving DecidableEq, Repr

/-- `run_query` of `ebay_sql_query.py` lines 334-362, parameterised by the
query engine `execQ` (`pd.read_sql_query` over the shared SQLite
connection; its raise is the `Except.error` branch).  `query = None` or
`query = ''` are the falsy values of `if not query`; that branch evaluates
`dash.no_update`, but the module only ever runs `from dash import ...` and
never binds the name `dash`, so the expression raises `NameError` before
the `try` block is entered — the error branch of the result.  Inside the
`try`, an engine failure is caught and turned into a display-only error
string next to a fallback preview of the stored table. -/
def runQuery (execQ : String → Except String Frame) (query : Option String)
    (stored : Frame) : Except String QueryOutput :=
  if query = none ∨ query = some "" then
    .error "NameError: name 'dash' is not defined"
  else
    match execQ (query.getD "") with
    | .ok rdf =>
      .ok ⟨createResultComponent rdf, "",
        if isScalarResult rdf then "Query returned a single value"
        else if isSingleRowResult rdf then "Query returned a single row"
        else "Query returned " ++ pyStrNat rdf.rows.length ++ " rows"⟩
    | .error e =>
      .ok ⟨createResultComponent (stored.head 5), "Query error: " ++ e,
        "Showing first 5 rows of " ++ pyStrNat stored.rows.length ++ " total rows"⟩

/-- `str(column).lower()` per character (`ebay_sql_query.py` line 43). -/
def pyLower (l : List Char) : List Char := l.map Char.toLower

/-- `re.sub(r'[^a-z0-9\s]', ' ', name)` (`ebay_sql_query.py` line 46):
keep lowercase letters, digits and whitespace, replace everything else by
a space. -/
def keepWordChars (l : List Char) : List Char :=
  l.map (fun c =>
    if ('a' ≤ c ∧ c ≤ 'z') ∨ c.isDigit ∨ c.isWhitespace then c else ' ')

/-- One step of splitting a character string into whitespace-separated
runs: a whitespace character opens a fresh (possibly empty) field, any
other character extends the current one. -/
def splitStep (c : Char) (acc : List (List Char)) : List (List Char) :=
  if c.isWhitespace then [] :: acc
  else
    match acc with
    | [] => [[c]]
    | w :: ws => (c :: w) :: ws

/-- The whitespace-separated fields of a string, empty fields included. -/
def splitRuns (l : List Char) : List (List Char) := l.foldr splitStep []

/-- `name.split()` (`ebay_sql_query.py` line 52); the preceding
`re.sub(r'\s+', ' ', name)` collapse (line 49) is absorbed because
`split()` already treats any whitespace run as one separator and drops
empty fields. -/
def pySplitWS (l : List Char) : List (List Char) :=
  (splitRuns l).filter (fun w => w ≠ [])

/-- The filler words removed from column names (`ebay_sql_query.py`
line 55). -/
def fillerWords : List (List Char) :=
  ["the", "a", "an", "and", "or", "but", "in", "on", "at", "to", "for",
   "of", "with"].map String.data

/-- The meaningful words of a column name: lowercase, keep word
characters, split on whitespace, drop filler words (`ebay_sql_query.py`
lines 43-56). -/
def cleanWords (column : String) : List (List Char) :=
  (pySplitWS (keepWordChars (pyLower column.data))).filter
    (fun w => w ∉ fillerWords)

/-- `clean_column_name` (`ebay_sql_query.py` lines 40-69): fall back to
`'column'` when no word remains, join the words with `'_'`, and prefix
`'col_'` when the first character is not a letter. -/
def cleanColumnName (column : String) : List Char :=
  if cleanWords column = [] then "column".data
  else if ¬ ((List.intercalate ['_'] (cleanWords column)).headD ' ').isAlpha then
    "col_".data ++ List.intercalate ['_'] (cleanWords column)
  else List.intercalate ['_'] (cleanWords column)

/-- The candidate names tried for one column: the cleaned base, then
`f"{base_name}_{counter}"` for `counter = 1, 2, ...`
(`ebay_sql_query.py` lines 80-84). -/
def candName (base : List Char) : ℕ → List Char
  | 0 => base
  | k + 1 => base ++ '_' :: natChars (k + 1)

/-- The `while clean_name in new_names` loop (`ebay_sql_query.py` lines
82-84), fuelled: the first candidate not already taken.  `taken.length + 1`
candidates always contain a free one (they are pairwise distinct), so the
fuel of `uniquify` never runs out. -/
def uniqLoop (taken : List (List Char)) (base : List Char) : ℕ → ℕ → List Char
  | 0, k => candName base k
  | fuel + 1, k =>
    if candName base k ∈ taken then uniqLoop taken base fuel (k + 1)
    else candName base k

/-- Deduplication of one cleaned name against the names already produced. -/
def uniquify (taken : List (List Char)) (base : List Char) : List Char :=
  uniqLoop taken base (taken.length + 1) 0

/-- The accumulation loop of `clean_column_names`
(`ebay_sql_query.py` lines 76-87). -/
def cleanColumnNamesGo (acc : List (List Char)) : List String → List (List Char)
  | [] => acc
  | c :: cs => cleanColumnNamesGo (acc ++ [uniquify acc (cleanColumnName c)]) cs

/-- `clean_column_names` (`ebay_sql_query.py` lines 71-91) restricted to
the new header it assigns to the frame (`df.columns = new_names`); the
original-name mapping it also returns is not involved in any claim. -/
def cleanColumnNames (cols : List String) : List (List Char) :=
  cleanColumnNamesGo [] cols

/-- A cleaned name in the shape the claim calls a valid SQL identifier:
non-empty, alphabetic first character, then lowercase letters, digits or
underscores. -/
def isCleanIdent : List Char → Bool
  | [] => false
  | c :: rest =>
    c.isAlpha && rest.all (fun d => ('a' ≤ d && d ≤ 'z') || d.isDigit || d == '_')

/-- Total view of a raising column step on one row: rewrite position `i`
with the successful value of `gc` (only used beneath a proof that `gc`
succeeds there). -/
def applyColE (gc : Cell → Except String Cell) (i : ℕ) (r : List Cell) : List Cell :=
  setCell r i (applyE gc (getCell r i))

/-- Rows of `hoold.py` `parse_contents` after the date parse, numeric
coercion and `'--'`→`None` steps (`di`/`ni`/`ti` the date / net / title
column positions). -/
def hooldStage3 (dp : String → Option DateVal) (rows : List (List Cell))
    (di ni ti : ℕ) : List (List Cell) :=
  ((rows.map (applyColE (toDatetime dp) di)).map (updAt ni coerceNum)).map
    (updAt ti dropDash)

/-- Rows of `hoold.py` `parse_contents` after the whole pipeline. -/
def normRows (dp : String → Option DateVal) (rows : List (List Cell))
    (di ni ti oi : ℕ) : List (List Cell) :=
  (backfillRows (hooldStage3 dp rows di ni ti) oi ti).map (updAt ti fillDash)

/-- The values of a labelled column, `none` when the label is missing. -/
def colVals (f : Frame) (c : String) : Option (List Cell) :=
  (colIdx? f.cols c).map (fun i => f.rows.map (fun r => getCell r i))

/-- The columns `gen_dash_app_1.py`'s normalizer writes to: the date
column (parsed and re-formatted), the title column, the declared monetary
columns, the `'--'`-filled metadata columns, and the derived `Total Fees`
column. -/
def genTouchedCols : List String :=
  "Order creation date" :: "Item title" :: "Total Fees" ::
    (genNumericCols ++ genFillDashCols)

/-- Ledger fixture for the hoold normalizer: two rows sharing order `O1`,
the first with a `'--'` title and a currency-formatted amount. -/
def cf2 : Frame :=
  ⟨["Transaction creation date", "Net amount", "Item title", "Order number"],
   [[.str "2024-01-01", .str "$1,234.56", .str "--", .str "O1"],
    [.str "2024-01-02", .str "10", .str "Widget A", .str "O1"]]⟩

/-- `normalizeH isoDate cf2` (checked below): dates parsed, amounts
coerced, the first row's title backfilled from the second. -/
def gOut2 : Frame :=
  ⟨["Transaction creation date", "Net amount", "Item title", "Order number"],
   [[.date (.parsed "2024-01-01"), .num 123456 2, .str "Widget A", .str "O1"],
    [.date (.parsed "2024-01-02"), .num 10 0, .str "Widget A", .str "O1"]]⟩

/-- A ledger with the `Transaction creation date` column entirely absent. -/
def cfMiss : Frame := ⟨["Net amount"], [[.str "5"]]⟩

/-- A ledger carrying every declared column but an unparseable date. -/
def cf5bad : Frame :=
  ⟨["Transaction creation date", "Net amount", "Item title", "Order number"],
   [[.str "abc", .str "5", .str "T", .str "O1"]]⟩

/-- Ledger fixture for the gen_dash normalizer: one Order row whose
`Buyer name` is absent and whose fee cells are partly `'--'`. -/
def cf4 : Frame :=
  ⟨["Order creation date", "Type", "Order number", "Item title", "Buyer name",
    "Item ID", "Ship to city", "Ship to province/region/state", "Ship to zip",
    "Ship to country", "Transaction currency", "Payout currency",
    "Final Value Fee - fixed", "Final Value Fee - variable",
    "Below standard performance fee", "Very high \"item not as described\" fee",
    "International fee", "Deposit processing fee", "Regulatory operating fee",
    "Promoted Listing Standard fee"],
   [[.str "2024-01-01", .str "Order", .str "O1", .str "Widget", .absent,
     .str "I1", .str "C", .str "S", .str "Z", .str "US", .str "USD", .str "USD",
     .str "1", .str "2", .str "--", .str "--", .str "--", .str "--", .str "--",
     .str "--"]]⟩

/-- `genNormalize isoDate cf4` (checked below): the absent `Buyer name`
has become the string `'--'` and a `Total Fees` column has been appended. -/
def gOut4 : Frame :=
  ⟨["Order creation date", "Type", "Order number", "Item title", "Buyer name",
    "Item ID", "Ship to city", "Ship to province/region/state", "Ship to zip",
    "Ship to country", "Transaction currency", "Payout currency",
    "Final Value Fee - fixed", "Final Value Fee - variable",
    "Below standard performance fee", "Very high \"item not as described\" fee",
    "International fee", "Deposit processing fee", "Regulatory operating fee",
    "Promoted Listing Standard fee", "Total Fees"],
   [[.str "2024-01-01", .str "Order", .str "O1", .str "Widget", .str "--",
     .str "I1", .str "C", .str "S", .str "Z", .str "US", .str "USD", .str "USD",
     .num 1 0, .num 2 0, .num 0 0, .num 0 0, .num 0 0, .num 0 0, .num 0 0,
     .num 0 0, .num 3 0]]⟩

/-- A caller's frame holding the missing-value sentinel. -/
def cf7 : Frame := ⟨["Net amount"], [[.str "--"]]⟩

/-- A group of three rows on the same date: amounts `10`, `20` and one
absent. -/
def p8 : List (Cell × Cell) :=
  [(.str "2024-06-01", .num 10 0), (.str "2024-06-01", .num 20 0),
   (.str "2024-06-01", .absent)]

/-- Two Order rows sharing `order_id = O1` with different titles, then a
non-Order row with the same order and no title (the spec's first-wins
test vector). -/
def c1rows : List LRow :=
  [⟨.str "Order", .str "O1", .str "Widget A"⟩,
   ⟨.str "Order", .str "O1", .str "Widget B"⟩,
   ⟨.str "Refund", .str "O1", .absent⟩]

/-- The same two Order rows as frame rows (order column 0, title column
1), as the groupby-first reference of the `parse_contents` normalizers
sees them. -/
def c1frameRows : List (List Cell) :=
  [[.str "O1", .str "Widget A"], [.str "O1", .str "Widget B"],
   [.str "O1", .absent]]

/-- A stored table for the query sandbox. -/
def store0 : Frame := ⟨["a"], [[.num 1 0]]⟩

/-- A query engine that always succeeds with an empty result. -/
def execEmpty : String → Except String Frame := fun _ => .ok ⟨[], []⟩

/-- A query engine that always raises (a malformed query). -/
def execFail : String → Except String Frame := fun _ => .error "no such table: dta"

theorem setCell_length (r : List Cell) (i : ℕ) (v : Cell) :
    (setCell r i v).length = r.length := by
  simp [setCell]

theorem updAt_length (i : ℕ) (g : Cell → Cell) (r : List Cell) :
    (updAt i g r).length = r.length := by
  simp [updAt, setCell]

theorem getCell_setCell_self : ∀ (r : List Cell) (i : ℕ) (v : Cell),
    i < r.length → getCell (setCell r i v) i = v := by
  intro r
  induction r with
  | nil => intro i v h; simp at h
  | cons a as ih =>
    intro i v h
    cases i with
    | zero => simp [getCell, setCell]
    | succ j =>
      simp only [setCell, List.set, getCell, List.getD] at *
      exact ih j v (by simpa using h)

theorem getCell_setCell_ne : ∀ (r : List Cell) (i j : ℕ) (v : Cell),
    i ≠ j → getCell (setCell r i v) j = getCell r j := by
  intro r
  induction r with
  | nil => intro i j v _; simp [setCell]
  | cons a as ih =>
    intro i j v hij
    cases i with
    | zero =>
      cases j with
      | zero => exact absurd rfl hij
      | succ j2 => simp [getCell, setCell]
    | succ i2 =>
      cases j with
      | zero => simp [getCell, setCell]
      | succ j2 =>
        simp only [setCell, List.set, getCell, List.getD] at *
        exact ih i2 j2 v (fun h => hij (by omega))

theorem setCell_getCell_self : ∀ (r : List Cell) (i : ℕ),
    setCell r i (getCell r i) = r := by
  intro r
  induction r with
  | nil => intro i; simp [setCell]
  | cons a as ih =>
    intro i
    cases i with
    | zero => simp [getCell, setCell]
    | succ j =>
      have h := ih j
      simp only [getCell, setCell] at h ⊢
      show a :: as.set j ((a :: as).getD (j + 1) Cell.absent) = a :: as
      rw [List.getD_cons_succ, h]

theorem setCell_setCell (r : List Cell) (i : ℕ) (v w : Cell) :
    setCell (setCell r i v) i w = setCell r i w := by
  simp [setCell, List.set_set]

theorem setCell_oob : ∀ (r : List Cell) (i : ℕ) (v : Cell),
    r.length ≤ i → setCell r i v = r := by
  intro r
  induction r with
  | nil => intro i v _; simp [setCell]
  | cons a as ih =>
    intro i v h
    cases i with
    | zero => simp at h
    | succ j =>
      simp only [setCell, List.set]
      simp only [setCell] at ih
      rw [ih j v (by simpa using h)]

theorem getCell_updAt_self (i : ℕ) (g : Cell → Cell) (r : List Cell)
    (h : i < r.length) : getCell (updAt i g r) i = g (getCell r i) :=
  getCell_setCell_self r i _ h

theorem getCell_updAt_ne (i j : ℕ) (g : Cell → Cell) (r : List Cell)
    (h : i ≠ j) : getCell (updAt i g r) j = getCell r j :=
  getCell_setCell_ne r i j _ h

theorem map_eq_self_of {α : Type} (g : α → α) :
    ∀ (l : List α), (∀ x ∈ l, g x = x) → l.map g = l := by
  intro l
  induction l with
  | nil => intro _; rfl
  | cons a as ih =>
    intro h
    simp only [List.map_cons]
    rw [h a (by simp), ih (fun x hx => h x (by simp [hx]))]

theorem find?_map_comm {α β : Type} (f : α → β) (p : β → Bool) :
    ∀ (l : List α), (l.map f).find? p = ((l.find? (fun a => p (f a))).map f) := by
  intro l
  induction l with
  | nil => rfl
  | cons a as ih =>
    by_cases h : p (f a)
    · simp [List.find?, h]
    · simp only [List.map_cons, List.find?, h]
      simpa [h] using ih

theorem find?_congr_mem {α : Type} (p q : α → Bool) :
    ∀ (l : List α), (∀ x ∈ l, p x = q x) → l.find? p = l.find? q := by
  intro l
  induction l with
  | nil => intro _; rfl
  | cons a as ih =>
    intro h
    have ha := h a (by simp)
    by_cases hq : q a = true
    · simp [List.find?, ha, hq]
    · have hq2 : q a = false := by simpa using hq
      simp [List.find?, ha, hq2, ih (fun x hx => h x (by simp [hx]))]

theorem digitVal_digitChar (d : ℕ) (h : d < 10) :
    digitVal (Nat.digitChar d) = d ∧ (Nat.digitChar d).isDigit = true := by
  interval_cases d <;> exact ⟨by decide, by decide⟩

theorem digitsVal_append_singleton (xs : List Char) (c : Char) :
    digitsVal (xs ++ [c]) = 10 * digitsVal xs + digitVal c := by
  simp [digitsVal, List.foldl_append]

theorem natCharsGo_spec : ∀ (fuel n : ℕ), n ≤ fuel ∨ n < 10 →
    digitsVal (natCharsGo fuel n) = n ∧
      ∀ c ∈ natCharsGo fuel n, c.isDigit = true := by
  intro fuel
  induction fuel with
  | zero =>
    intro n h
    have hn : n < 10 := by omega
    obtain ⟨h1, h2⟩ := digitVal_digitChar n hn
    refine ⟨?_, ?_⟩
    · simp [natCharsGo, digitsVal, h1]
    · intro c hc
      simp [natCharsGo] at hc
      subst hc; exact h2
  | succ f ih =>
    intro n h
    by_cases hn : n < 10
    · obtain ⟨h1, h2⟩ := digitVal_digitChar n hn
      refine ⟨by simp [natCharsGo, hn, digitsVal, h1], ?_⟩
      intro c hc
      simp [natCharsGo, hn] at hc
      subst hc; exact h2
    · have hge : 10 ≤ n := by omega
      have hle : n ≤ f + 1 := by omega
      have hdiv : n / 10 ≤ f := by
        have := Nat.div_lt_self (by omega : 0 < n) (by omega : 1 < 10)
        omega
      obtain ⟨ih1, ih2⟩ := ih (n / 10) (Or.inl hdiv)
      obtain ⟨m1, m2⟩ := digitVal_digitChar (n % 10) (Nat.mod_lt n (by omega))
      refine ⟨?_, ?_⟩
      · rw [natCharsGo, if_neg hn, digitsVal_append_singleton, ih1, m1]
        omega
      · intro c hc
        rw [natCharsGo, if_neg hn] at hc
        rcases List.mem_append.1 hc with h2 | h2
        · exact ih2 c h2
        · simp at h2; subst h2; exact m2

theorem natChars_spec (n : ℕ) :
    digitsVal (natChars n) = n ∧ ∀ c ∈ natChars n, c.isDigit = true :=
  natCharsGo_spec n n (Or.inl le_rfl)

theorem natChars_inj (a b : ℕ) (h : natChars a = natChars b) : a = b := by
  have ha := (natChars_spec a).1
  have hb := (natChars_spec b).1
  rw [← ha, ← hb, h]

theorem natCharsGo_ne_nil (fuel n : ℕ) : natCharsGo fuel n ≠ [] := by
  cases fuel with
  | zero => simp [natCharsGo]
  | succ f =>
    by_cases h : n < 10 <;> simp [natCharsGo, h]

theorem candName_inj (base : List Char) : ∀ j k : ℕ,
    candName base j = candName base k → j = k := by
  intro j k h
  cases j with
  | zero =>
    cases k with
    | zero => rfl
    | succ k2 =>
      exfalso
      have hl := congrArg List.length h
      simp only [candName, List.length_append, List.length_cons] at hl
      omega
  | succ j2 =>
    cases k with
    | zero =>
      exfalso
      have hl := congrArg List.length h
      simp only [candName, List.length_append, List.length_cons] at hl
      omega
    | succ k2 =>
      simp only [candName] at h
      have h2 := List.append_cancel_left h
      have h3 : natChars (j2 + 1) = natChars (k2 + 1) := by
        injection h2
      have := natChars_inj _ _ h3
      omega

theorem exists_free_cand (taken : List (List Char)) (base : List Char) :
    ∃ k, k ≤ taken.length ∧ candName base k ∉ taken := by
  by_contra hcon
  push_neg at hcon
  have hsub : (Finset.range (taken.length + 1)).image (candName base)
      ⊆ taken.toFinset := by
    intro x hx
    rcases Finset.mem_image.1 hx with ⟨k, hk, rfl⟩
    exact List.mem_toFinset.2 (hcon k (by
      have := Finset.mem_range.1 hk; omega))
  have hcard := Finset.card_le_card hsub
  rw [Finset.card_image_of_injOn (fun a _ b _ h => candName_inj base a b h),
    Finset.card_range] at hcard
  have := taken.toFinset_card_le
  omega

theorem uniqLoop_eq_cand (taken : List (List Char)) (base : List Char) :
    ∀ (fuel k : ℕ), ∃ j, uniqLoop taken base fuel k = candName base j := by
  intro fuel
  induction fuel with
  | zero => intro k; exact ⟨k, rfl⟩
  | succ f ih =>
    intro k
    by_cases h : candName base k ∈ taken
    · obtain ⟨j, hj⟩ := ih (k + 1)
      exact ⟨j, by simp [uniqLoop, h, hj]⟩
    · exact ⟨k, by simp [uniqLoop, h]⟩

theorem uniqLoop_not_mem (taken : List (List Char)) (base : List Char) :
    ∀ (fuel k : ℕ), (∃ j, k ≤ j ∧ j < k + fuel ∧ candName base j ∉ taken) →
      uniqLoop taken base fuel k ∉ taken := by
  intro fuel
  induction fuel with
  | zero =>
    intro k h
    obtain ⟨j, h1, h2, _⟩ := h
    omega
  | succ f ih =>
    intro k h
    obtain ⟨j, h1, h2, h3⟩ := h
    by_cases hmem : candName base k ∈ taken
    · have hne : j ≠ k := fun e => h3 (e ▸ hmem)
      rw [uniqLoop, if_pos hmem]
      exact ih (k + 1) ⟨j, by omega, by omega, h3⟩
    · rw [uniqLoop, if_neg hmem]
      exact hmem

theorem uniquify_not_mem (taken : List (List Char)) (base : List Char) :
    uniquify taken base ∉ taken := by
  obtain ⟨j, hj, hfree⟩ := exists_free_cand taken base
  exact uniqLoop_not_mem taken base (taken.length + 1) 0 ⟨j, by omega, by omega, hfree⟩

theorem uniquify_eq_cand (taken : List (List Char)) (base : List Char) :
    ∃ j, uniquify taken base = candName base j :=
  uniqLoop_eq_cand taken base (taken.length + 1) 0

theorem cleanColumnNamesGo_nodup : ∀ (cs : List String) (acc : List (List Char)),
    acc.Nodup → (cleanColumnNamesGo acc cs).Nodup := by
  intro cs
  induction cs with
  | nil => intro acc h; exact h
  | cons c cs ih =>
    intro acc h
    apply ih
    refine List.Nodup.append h (List.nodup_singleton _) ?_
    intro a ha hmem
    rcases List.mem_singleton.1 hmem with rfl
    exact uniquify_not_mem acc (cleanColumnName c) ha

theorem cleanColumnNamesGo_mem : ∀ (cs : List String) (acc : List (List Char))
    (x : List Char), x ∈ cleanColumnNamesGo acc cs →
      x ∈ acc ∨ ∃ c j, x = candName (cleanColumnName c) j := by
  intro cs
  induction cs with
  | nil => intro acc x h; exact Or.inl h
  | cons c cs ih =>
    intro acc x h
    rcases ih _ x h with h2 | h2
    · rcases List.mem_append.1 h2 with h3 | h3
      · exact Or.inl h3
      · right
        rcases List.mem_singleton.1 h3 with rfl
        obtain ⟨j, hj⟩ := uniquify_eq_cand acc (cleanColumnName c)
        exact ⟨c, j, hj⟩
    · exact Or.inr h2

theorem keepWordChars_mem (l : List Char) :
    ∀ c ∈ keepWordChars l,
      ('a' ≤ c ∧ c ≤ 'z') ∨ c.isDigit = true ∨ c.isWhitespace = true := by
  intro c hc
  rcases List.mem_map.1 hc with ⟨a, _, ha⟩
  by_cases hcond : ('a' ≤ a ∧ a ≤ 'z') ∨ a.isDigit ∨ a.isWhitespace
  · rw [if_pos hcond] at ha
    subst ha
    exact hcond
  · rw [if_neg hcond] at ha
    subst ha
    right; right; decide

theorem splitRuns_chars : ∀ (l : List Char), ∀ w ∈ splitRuns l,
    ∀ c ∈ w, c ∈ l ∧ c.isWhitespace = false := by
  intro l
  induction l with
  | nil => intro w hw; simp [splitRuns] at hw
  | cons a as ih =>
    intro w hw c hc
    have hw2 : w ∈ splitStep a (splitRuns as) := hw
    by_cases ha : a.isWhitespace
    · rw [splitStep.eq_def, if_pos ha] at hw2
      rcases List.mem_cons.1 hw2 with rfl | hw3
      · simp at hc
      · obtain ⟨h1, h2⟩ := ih w hw3 c hc
        exact ⟨by simp [h1], h2⟩
    · rw [splitStep.eq_def, if_neg ha] at hw2
      cases hres : splitRuns as with
      | nil =>
        rw [hres] at hw2
        rcases List.mem_singleton.1 hw2 with rfl
        rcases List.mem_singleton.1 hc with rfl
        exact ⟨by simp, by simpa using ha⟩
      | cons w0 ws0 =>
        rw [hres] at hw2
        rcases List.mem_cons.1 hw2 with rfl | hw3
        · rcases List.mem_cons.1 hc with rfl | hc2
          · exact ⟨by simp, by simpa using ha⟩
          · obtain ⟨h1, h2⟩ := ih w0 (by rw [hres]; simp) c hc2
            exact ⟨by simp [h1], h2⟩
        · obtain ⟨h1, h2⟩ := ih w (by rw [hres]; simp [hw3]) c hc
          exact ⟨by simp [h1], h2⟩

theorem pySplitWS_words (l : List Char) :
    ∀ w ∈ pySplitWS l, w ≠ [] ∧ ∀ c ∈ w, c ∈ l ∧ c.isWhitespace = false := by
  intro w hw
  rcases List.mem_filter.1 hw with ⟨hmem, hne⟩
  refine ⟨by simpa using hne, fun c hc => splitRuns_chars l w hmem c hc⟩

theorem cleanWords_chars (s : String) :
    ∀ w ∈ cleanWords s, w ≠ [] ∧
      ∀ c ∈ w, ('a' ≤ c ∧ c ≤ 'z') ∨ c.isDigit = true := by
  intro w hw
  rcases List.mem_filter.1 hw with ⟨hmem, _⟩
  obtain ⟨hne, hchars⟩ := pySplitWS_words _ w hmem
  refine ⟨hne, fun c hc => ?_⟩
  obtain ⟨hin, hws⟩ := hchars c hc
  rcases keepWordChars_mem _ c hin with h | h | h
  · exact Or.inl h
  · exact Or.inr h
  · rw [hws] at h; exact absurd h (by simp)

theorem intercalate_cases : ∀ (ws : List (List Char)) (x : Char),
    x ∈ List.intercalate ['_'] ws → (∃ w ∈ ws, x ∈ w) ∨ x = '_' := by
  intro ws
  induction ws with
  | nil => intro x hx; simp [List.intercalate] at hx
  | cons w ws ih =>
    intro x hx
    cases ws with
    | nil =>
      left
      exact ⟨w, by simp, by simpa [List.intercalate] using hx⟩
    | cons w2 ws2 =>
      have heq : List.intercalate ['_'] (w :: w2 :: ws2) =
          w ++ '_' :: List.intercalate ['_'] (w2 :: ws2) := by
        simp [List.intercalate, List.intersperse]
      rw [heq] at hx
      rcases List.mem_append.1 hx with h | h
      · exact Or.inl ⟨w, by simp, h⟩
      · rcases List.mem_cons.1 h with rfl | h2
        · exact Or.inr rfl
        · rcases ih x h2 with ⟨w3, hw3, hx3⟩ | h3
          · exact Or.inl ⟨w3, by simp [hw3], hx3⟩
          · exact Or.inr h3

theorem intercalate_cons_shape (w : List Char) (ws : List (List Char)) :
    ∃ t, List.intercalate ['_'] (w :: ws) = w ++ t := by
  cases ws with
  | nil => exact ⟨[], by simp [List.intercalate]⟩
  | cons w2 ws2 =>
    refine ⟨'_' :: List.intercalate ['_'] (w2 :: ws2), ?_⟩
    simp [List.intercalate, List.intersperse]

theorem identChar_of_word (d : Char) (h : ('a' ≤ d ∧ d ≤ 'z') ∨ d.isDigit = true) :
    (('a' ≤ d && d ≤ 'z') || d.isDigit || d == '_') = true := by
  rcases h with ⟨h1, h2⟩ | h
  · simp [h1, h2]
  · simp [h]

theorem identChar_underscore :
    ((('a' ≤ '_' && '_' ≤ 'z') || Char.isDigit '_' || '_' == '_') : Bool) = true := by
  decide

theorem isCleanIdent_cleanColumnName (s : String) :
    isCleanIdent (cleanColumnName s) = true := by
  rw [cleanColumnName]
  by_cases hw : cleanWords s = []
  · rw [if_pos hw]; decide
  · rw [if_neg hw]
    obtain ⟨w, ws, hcons⟩ : ∃ w ws, cleanWords s = w :: ws := by
      cases hcw : cleanWords s with
      | nil => exact absurd hcw hw
      | cons w ws => exact ⟨w, ws, rfl⟩
    have hwmem : w ∈ cleanWords s := by rw [hcons]; exact List.mem_cons_self w ws
    obtain ⟨hne, _⟩ := cleanWords_chars s w hwmem
    obtain ⟨c0, w2, hc0⟩ : ∃ c0 w2, w = c0 :: w2 := by
      cases w with
      | nil => exact absurd rfl hne
      | cons c0 w2 => exact ⟨c0, w2, rfl⟩
    obtain ⟨t, ht⟩ := intercalate_cons_shape w ws
    have hj : List.intercalate ['_'] (cleanWords s) = c0 :: (w2 ++ t) := by
      rw [hcons, ht, hc0, List.cons_append]
    have hall : ∀ d ∈ List.intercalate ['_'] (cleanWords s),
        (('a' ≤ d && d ≤ 'z') || d.isDigit || d == '_') = true := by
      intro d hd
      rcases intercalate_cases _ d hd with ⟨w3, hw3, hd3⟩ | rfl
      · exact identChar_of_word d ((cleanWords_chars s w3 hw3).2 d hd3)
      · exact identChar_underscore
    by_cases hh : ((List.intercalate ['_'] (cleanWords s)).headD ' ').isAlpha = true
    · rw [if_neg (not_not_intro hh)]
      rw [hj]
      have hc0alpha : c0.isAlpha = true := by
        rw [hj] at hh
        simpa using hh
      simp only [isCleanIdent, Bool.and_eq_true, List.all_eq_true]
      refine ⟨hc0alpha, fun d hd => ?_⟩
      exact hall d (by rw [hj]; exact List.mem_cons_of_mem _ hd)
    · rw [if_pos hh]
      have hcol : "col_".data = ['c', 'o', 'l', '_'] := by decide
      rw [hcol]
      show isCleanIdent
        ('c' :: ('o' :: 'l' :: '_' :: List.intercalate ['_'] (cleanWords s))) = true
      simp only [isCleanIdent, Bool.and_eq_true, List.all_eq_true]
      refine ⟨by decide, fun d hd => ?_⟩
      rcases List.mem_cons.1 hd with rfl | hd
      · decide
      rcases List.mem_cons.1 hd with rfl | hd
      · decide
      rcases List.mem_cons.1 hd with rfl | hd
      · decide
      exact hall d hd

theorem isCleanIdent_candName (base : List Char) (k : ℕ)
    (h : isCleanIdent base = true) : isCleanIdent (candName base k) = true := by
  cases k with
  | zero => exact h
  | succ k2 =>
    cases base with
    | nil => simp [isCleanIdent] at h
    | cons c rest =>
      simp only [isCleanIdent, Bool.and_eq_true, List.all_eq_true] at h
      obtain ⟨h1, h2⟩ := h
      show isCleanIdent ((c :: rest) ++ '_' :: natChars (k2 + 1)) = true
      rw [List.cons_append]
      simp only [isCleanIdent, Bool.and_eq_true, List.all_eq_true]
      refine ⟨h1, fun d hd => ?_⟩
      rcases List.mem_append.1 hd with hd | hd
      · exact h2 d hd
      rcases List.mem_cons.1 hd with rfl | hd
      · decide
      · exact identChar_of_word d (Or.inr ((natChars_spec (k2 + 1)).2 d hd))

/-- C10: for every input table, `clean_column_names` returns pairwise
distinct column names, and every name it produces is a non-empty string
whose first character is an alphabetic letter and whose remaining
characters are lowercase letters, digits or underscores — a valid SQL
identifier. -/
theorem clean_column_names_distinct_idents (cols : List String) :
    (cleanColumnNames cols).Nodup ∧
      ∀ n ∈ cleanColumnNames cols, isCleanIdent n = true := by
  constructor
  · exact cleanColumnNamesGo_nodup cols [] List.nodup_nil
  · intro n hn
    rcases cleanColumnNamesGo_mem cols [] n hn with h | ⟨c, j, rfl⟩
    · simp at h
    · exact isCleanIdent_candName _ _ (isCleanIdent_cleanColumnName c)

theorem map_eq_self_iff {α : Type} (g : α → α) :
    ∀ (l : List α), l.map g = l ↔ ∀ x ∈ l, g x = x := by
  intro l
  induction l with
  | nil => simp
  | cons a as ih =>
    simp only [List.map_cons, List.cons.injEq, List.mem_cons]
    constructor
    · rintro ⟨h1, h2⟩ x (rfl | hx)
      · exact h1
      · exact (ih.1 h2) x hx
    · intro h
      exact ⟨h a (Or.inl rfl), ih.2 (fun x hx => h x (Or.inr hx))⟩

theorem dropDash_eq_self_iff (c : Cell) : dropDash c = c ↔ c ≠ Cell.str "--" := by
  by_cases h : c = Cell.str "--"
  · subst h
    simp [dropDash]
  · simp [dropDash, h]

/-- C1 (the reference-map code evaluated at the failing input): on a
ledger with two Order rows sharing `order_id = O1`, titled `Widget A`
then `Widget B`, the reference dict of `calculate_payout.py` (built by
plain overwriting insertion) maps `O1` to `Widget B` — the last
occurrence, not the first — while the `groupby(...).first()` reference of
the `parse_contents` normalizers maps `O1` to `Widget A` as the claim
demands. -/
theorem calc_ref_last_wins_on_duplicate :
    dictGet? (calcRef c1rows) (.str "O1") = some (.str "Widget B") ∧
      dictGet? (calcRef c1rows) (.str "O1") ≠ some (.str "Widget A") ∧
      titleMap c1frameRows 0 1 (.str "O1") = some (.str "Widget A") := by
  refine ⟨by decide, by decide, by decide⟩

/-- C3 counterexample: the numeric coercion `gen_dash_app_1.py` applies
to its declared monetary columns ends with `.fillna(0)`, so the sentinel
`"--"` is mapped to the real number `0`, not to the absent marker. -/
theorem gen_coercion_maps_sentinel_to_zero :
    coerceFill0 (.str "--") = .num 0 0 ∧ Cell.num 0 0 ≠ Cell.absent := by
  refine ⟨by decide, by decide⟩

/-- C3 amended: in `hoold.py`'s normalizer the monetary coercion maps
`"$1,234.56"` to the number `1234.56` (the exact decimal `123456/10^2`)
and maps the sentinel `"--"` and the unparseable `"abc"` to the absent
marker, never raising (the coercion is a total function by construction);
in `gen_dash_app_1.py` the same coercion is followed by `.fillna(0)`, so
`"--"` and `"abc"` map to the number `0` there. -/
theorem coercion_best_effort :
    coerceNum (.str "$1,234.56") = .num 123456 2 ∧
      decToRat 123456 2 = 1234.56 ∧
      coerceNum (.str "--") = .absent ∧
      coerceNum (.str "abc") = .absent ∧
      coerceFill0 (.str "$1,234.56") = .num 123456 2 ∧
      coerceFill0 (.str "--") = .num 0 0 ∧
      coerceFill0 (.str "abc") = .num 0 0 := by
  refine ⟨by decide, ?_, by decide, by decide, by decide, by decide, by decide⟩
  norm_num [decToRat]

theorem transform_snd (df : Frame) : (transform df).2 = replaceAllDash df := by
  simp only [transform]
  split
  · rfl
  · split <;> rfl

/-- C7 counterexample: `transform` of `app/app.py` mutates the frame its
caller passed in — `df.replace('--', np.nan, inplace=True)` — so after
the call on a frame holding the sentinel, the caller's rows have changed. -/
theorem transform_mutates_input : (transform cf7).2 ≠ cf7 := by decide

/-- C7 amended: `transform` is not pure — it rewrites the caller's frame
in place; the input frame after the call is exactly the input with every
`"--"` cell replaced by the absent marker, so it is unchanged precisely
when the input holds no sentinel cell. -/
theorem transform_mutation_is_sentinel_replacement (df : Frame) :
    (transform df).2 = replaceAllDash df ∧
      ((transform df).2 = df ↔ ∀ r ∈ df.rows, ∀ c ∈ r, c ≠ Cell.str "--") := by
  refine ⟨transform_snd df, ?_⟩
  rw [transform_snd df]
  unfold replaceAllDash
  constructor
  · intro h r hr c hc
    have hrows : df.rows.map (List.map dropDash) = df.rows := congrArg Frame.rows h
    have h1 := (map_eq_self_iff (List.map dropDash) df.rows).1 hrows r hr
    have h2 := (map_eq_self_iff dropDash r).1 h1 c hc
    exact (dropDash_eq_self_iff c).1 h2
  · intro h
    have hrows : df.rows.map (List.map dropDash) = df.rows := by
      rw [map_eq_self_iff]
      intro r hr
      rw [map_eq_self_iff]
      intro c hc
      exact (dropDash_eq_self_iff c).2 (h r hr c hc)
    calc (⟨df.cols, df.rows.map (List.map dropDash)⟩ : Frame)
        = ⟨df.cols, df.rows⟩ := by rw [hrows]
      _ = df := rfl

theorem addDec_zero (a : ℤ × ℕ) : addDec a (0, 0) = a := by
  simp [addDec, Nat.max_zero, Nat.sub_self]

theorem foldl_skipna_eq_fillzero :
    ∀ (l : List Cell) (acc : ℤ × ℕ),
      (∀ c ∈ l, cellDec c = none → c = Cell.absent) →
      (l.filterMap cellDec).foldl addDec acc =
        (l.map fillZeroDec).foldl addDec acc := by
  intro l
  induction l with
  | nil => intro acc _; rfl
  | cons c cs ih =>
    intro acc h
    cases hc : cellDec c with
    | some p =>
      have hfz : fillZeroDec c = p := by
        cases c with
        | num m e =>
          simp only [cellDec, Option.some.injEq] at hc
          exact hc ▸ rfl
        | str s => simp [cellDec] at hc
        | date d => simp [cellDec] at hc
        | absent => simp [cellDec] at hc
      simp only [List.filterMap_cons, hc, List.map_cons, List.foldl_cons, hfz]
      exact ih (addDec acc p) (fun x hx => h x (by simp [hx]))
    | none =>
      have habs : c = Cell.absent := h c (by simp) hc
      subst habs
      simp only [List.filterMap_cons, cellDec, List.map_cons, List.foldl_cons,
        fillZeroDec, addDec_zero]
      exact ih acc (fun x hx => h x (by simp [hx]))

theorem sumDec_skipna_eq_fillzero (l : List Cell)
    (h : ∀ c ∈ l, cellDec c = none → c = Cell.absent) :
    sumDec (l.filterMap cellDec) = sumDec (l.map fillZeroDec) :=
  foldl_skipna_eq_fillzero l (0, 0) h

theorem find?_beq_self : ∀ (l : List Cell) (k : Cell), k ∈ l →
    l.find? (fun x => x == k) = some k := by
  intro l
  induction l with
  | nil => intro k h; simp at h
  | cons a as ih =>
    intro k h
    by_cases ha : a = k
    · subst ha
      simp [List.find?]
    · have : (a == k) = false := by simp [ha]
      rw [List.find?, this]
      rcases List.mem_cons.1 h with rfl | h2
      · exact absurd rfl ha
      · exact ih k h2

/-- C8: aggregation zero-fill — for every normalized ledger column pair
(whose value cells are numeric or absent), and every group key, the
aggregated group sum equals the sum of the group's values with absent
valued at zero: a row whose value is absent stays in its group and
contributes exactly 0. -/
theorem aggregate_zero_fill (ps : List (Cell × Cell)) (k : Cell)
    (hvals : ∀ p ∈ ps, cellDec p.2 = none → p.2 = Cell.absent)
    (hk : k ∈ uniqueKeysList ps) :
    lookupGroup (groupbySum ps) k =
      some (sumDec ((ps.filter (fun p => p.1 == k)).map (fun p => fillZeroDec p.2))) := by
  unfold lookupGroup groupbySum
  rw [find?_map_comm]
  have hfind : (uniqueKeysList ps).find?
      (fun k2 => (k2, sumDec ((ps.filter (fun p => p.1 == k2)).filterMap
        (fun p => cellDec p.2))).1 == k) = some k := find?_beq_self _ k hk
  rw [hfind]
  simp only [Option.map_some']
  have hcells : sumDec ((ps.filter (fun p => p.1 == k)).filterMap (fun p => cellDec p.2)) =
      sumDec ((ps.filter (fun p => p.1 == k)).map (fun p => fillZeroDec p.2)) := by
    have h1 : (ps.filter (fun p => p.1 == k)).filterMap (fun p => cellDec p.2) =
        ((ps.filter (fun p => p.1 == k)).map Prod.snd).filterMap cellDec := by
      rw [List.filterMap_map]
      rfl
    have h2 : (ps.filter (fun p => p.1 == k)).map (fun p => fillZeroDec p.2) =
        ((ps.filter (fun p => p.1 == k)).map Prod.snd).map fillZeroDec := by
      rw [List.map_map]
      rfl
    rw [h1, h2]
    apply sumDec_skipna_eq_fillzero
    intro c hc
    rcases List.mem_map.1 hc with ⟨p, hp, rfl⟩
    exact hvals p (List.mem_of_mem_filter hp)
  rw [hcells]

/-- Witness for C8 at the spec's vector: the group of `2024-06-01` with
amounts `10`, `20` and one absent cell sums to `30`. -/
theorem aggregate_zero_fill_witness :
    ((∀ p ∈ p8, cellDec p.2 = none → p.2 = Cell.absent) ∧
      (Cell.str "2024-06-01") ∈ uniqueKeysList p8) ∧
      lookupGroup (groupbySum p8) (.str "2024-06-01") =
        some (sumDec ((p8.filter (fun p => p.1 == .str "2024-06-01")).map
          (fun p => fillZeroDec p.2))) ∧
      lookupGroup (groupbySum p8) (.str "2024-06-01") = some (30, 0) := by
  refine ⟨⟨by decide, by decide⟩,
    aggregate_zero_fill p8 (.str "2024-06-01") (by decide) (by decide), by decide⟩

/-- C9 (the handler evaluated at the failing input): an empty — falsy —
query makes `run_query` evaluate `dash.no_update`, a name the module
never imports, so `NameError` is raised and escapes the handler (first
two conjuncts, for `''` and `None`); a non-empty query whose execution
fails inside the `try` block is, as the claim says, turned into a
display-only error string beside a fallback preview of the stored table
(third conjunct). -/
theorem run_query_name_error_on_empty :
    runQuery execEmpty (some "") store0 =
        .error "NameError: name 'dash' is not defined" ∧
      runQuery execEmpty none store0 =
        .error "NameError: name 'dash' is not defined" ∧
      runQuery execFail (some "SELECT * FROM dta") store0 =
        .ok ⟨createResultComponent (store0.head 5),
          "Query error: no such table: dta",
          "Showing first 5 rows of 1 total rows"⟩ := by
  refine ⟨by decide, by decide, by decide⟩


@[simp] theorem mk_cols (cs : List String) (rs : List (List Cell)) :
    (Frame.mk cs rs).cols = cs := rfl

@[simp] theorem mk_rows (cs : List String) (rs : List (List Cell)) :
    (Frame.mk cs rs).rows = rs := rfl

theorem ok_bind {ε α β : Type} (a : α) (g : α → Except ε β) :
    ((Except.ok a : Except ε α) >>= g) = g a := rfl

theorem error_bind {ε α β : Type} (e : ε) (g : α → Except ε β) :
    ((Except.error e : Except ε α) >>= g) = .error e := rfl

theorem colIdx?_get : ∀ (cols : List String) (c : String) (i : ℕ),
    colIdx? cols c = some i → i < cols.length ∧ cols.get? i = some c := by
  intro cols
  induction cols with
  | nil => intro c i h; simp [colIdx?] at h
  | cons a as ih =>
    intro c i h
    by_cases ha : a = c
    · rw [colIdx?, if_pos ha] at h
      rcases Option.some.inj h with rfl
      exact ⟨by simp, by simp [ha]⟩
    · rw [colIdx?, if_neg ha] at h
      rcases Option.map_eq_some'.1 h with ⟨j, hj, rfl⟩
      obtain ⟨h1, h2⟩ := ih c j hj
      exact ⟨by simpa using h1, by simpa using h2⟩

theorem colIdx?_ne (cols : List String) (a b : String) (i j : ℕ)
    (ha : colIdx? cols a = some i) (hb : colIdx? cols b = some j)
    (hab : a ≠ b) : i ≠ j := by
  intro he
  subst he
  have h1 := (colIdx?_get cols a i ha).2
  have h2 := (colIdx?_get cols b i hb).2
  rw [h1] at h2
  exact hab (Option.some.inj h2)

theorem colIdx?_eq_none_iff (cols : List String) (c : String) :
    colIdx? cols c = none ↔ c ∉ cols := by
  induction cols with
  | nil => simp [colIdx?]
  | cons a as ih =>
    rw [colIdx?]
    by_cases ha : a = c
    · subst ha; simp
    · rw [if_neg ha, Option.map_eq_none', ih]
      constructor
      · intro h hmem
        rcases List.mem_cons.1 hmem with e | hm
        · exact ha e.symm
        · exact h hm
      · intro h hm
        exact h (List.mem_cons_of_mem a hm)

theorem mapE_eq_ok_map {α β : Type} (g : α → Except String β) (gv : α → β)
    (hg : ∀ a b, g a = .ok b → gv a = b) :
    ∀ (l : List α), (∀ a ∈ l, isOkE (g a) = true) → mapE g l = .ok (l.map gv) := by
  intro l
  induction l with
  | nil => intro _; rfl
  | cons a as ih =>
    intro h
    cases hga : g a with
    | error e =>
      have := h a (by simp)
      rw [hga] at this
      simp [isOkE] at this
    | ok b =>
      rw [mapE, hga, ih (fun x hx => h x (by simp [hx]))]
      simp [hg a b hga]

theorem mapE_ok_forall {α β : Type} (g : α → Except String β) :
    ∀ (l : List α) (l2 : List β), mapE g l = .ok l2 →
      ∀ a ∈ l, isOkE (g a) = true := by
  intro l
  induction l with
  | nil => intro l2 _ a ha; simp at ha
  | cons a as ih =>
    intro l2 h x hx
    rw [mapE] at h
    cases hga : g a with
    | error e => rw [hga] at h; cases h
    | ok b =>
      rw [hga] at h
      cases hm : mapE g as with
      | error e => rw [hm] at h; cases h
      | ok bs =>
        rcases List.mem_cons.1 hx with rfl | hx2
        · simp [isOkE, hga]
        · exact ih bs hm x hx2

theorem rowStepE_ok (g : Cell → Except String Cell) (i : ℕ) (r : List Cell)
    (h : isOkE (g (getCell r i)) = true) :
    rowStepE g i r = .ok (applyColE g i r) := by
  rw [rowStepE]
  cases hgr : g (getCell r i) with
  | error e => rw [hgr] at h; simp [isOkE] at h
  | ok v => simp [applyColE, applyE, hgr]

theorem rowStepE_isOk (g : Cell → Except String Cell) (i : ℕ) (r : List Cell) :
    isOkE (rowStepE g i r) = isOkE (g (getCell r i)) := by
  rw [rowStepE]
  cases hgr : g (getCell r i) with
  | error e => simp [isOkE]
  | ok v => simp [isOkE]

theorem mapColE_eq_core (f : Frame) (c : String) (g : Cell → Except String Cell)
    (i : ℕ) (hi : colIdx? f.cols c = some i) :
    f.mapColE c g = mapColECore g i f.cols f.rows := by
  rw [Frame.mapColE, hi]

theorem mapColECore_ok (g : Cell → Except String Cell) (i : ℕ)
    (cols : List String) (rows : List (List Cell))
    (hok : ∀ r ∈ rows, isOkE (g (getCell r i)) = true) :
    mapColECore g i cols rows = .ok ⟨cols, rows.map (applyColE g i)⟩ := by
  rw [mapColECore,
    mapE_eq_ok_map (rowStepE g i) (applyColE g i)
      (fun r b hb => by
        have hr : isOkE (rowStepE g i r) = true := by rw [hb]; rfl
        rw [rowStepE_isOk] at hr
        have := rowStepE_ok g i r hr
        rw [this] at hb
        exact Except.ok.inj hb)
      rows
      (fun r hr => by rw [rowStepE_isOk]; exact hok r hr)]

theorem mapColE_ok (f : Frame) (c : String) (g : Cell → Except String Cell)
    (i : ℕ) (hi : colIdx? f.cols c = some i)
    (hok : ∀ r ∈ f.rows, isOkE (g (getCell r i)) = true) :
    f.mapColE c g = .ok ⟨f.cols, f.rows.map (applyColE g i)⟩ := by
  rw [mapColE_eq_core f c g i hi, mapColECore_ok g i f.cols f.rows hok]

theorem mapColECore_ok_inv (g : Cell → Except String Cell) (i : ℕ)
    (cols : List String) (rows : List (List Cell)) (f2 : Frame)
    (h : mapColECore g i cols rows = .ok f2) :
    (∀ r ∈ rows, isOkE (g (getCell r i)) = true) ∧
      f2 = ⟨cols, rows.map (applyColE g i)⟩ := by
  rw [mapColECore] at h
  cases hm : mapE (rowStepE g i) rows with
  | error e => rw [hm] at h; cases h
  | ok rs =>
    rw [hm] at h
    have hok : ∀ r ∈ rows, isOkE (g (getCell r i)) = true := by
      intro r hr
      have := mapE_ok_forall (rowStepE g i) rows rs hm r hr
      rw [rowStepE_isOk] at this
      exact this
    refine ⟨hok, ?_⟩
    have hthis := mapColECore_ok g i cols rows hok
    rw [mapColECore, hm] at hthis
    have h2 : (Except.ok ⟨cols, rs⟩ : Except String Frame) = .ok f2 := h
    have t2 : (Except.ok ⟨cols, rs⟩ : Except String Frame) =
        .ok ⟨cols, rows.map (applyColE g i)⟩ := hthis
    exact (Except.ok.inj h2).symm.trans (Except.ok.inj t2)

theorem mapColE_ok_inv (f : Frame) (c : String) (g : Cell → Except String Cell)
    (f2 : Frame) (h : f.mapColE c g = .ok f2) :
    ∃ i, colIdx? f.cols c = some i ∧
      (∀ r ∈ f.rows, isOkE (g (getCell r i)) = true) ∧
      f2 = ⟨f.cols, f.rows.map (applyColE g i)⟩ := by
  rw [Frame.mapColE] at h
  cases hi : colIdx? f.cols c with
  | none => rw [hi] at h; cases h
  | some i =>
    rw [hi] at h
    obtain ⟨hok, heq⟩ := mapColECore_ok_inv g i f.cols f.rows f2 h
    exact ⟨i, rfl, hok, heq⟩

theorem mapCol_some (f : Frame) (c : String) (g : Cell → Cell) (i : ℕ)
    (h : colIdx? f.cols c = some i) :
    f.mapCol c g = .ok ⟨f.cols, f.rows.map (updAt i g)⟩ := by
  rw [Frame.mapCol, h]

theorem mapCol_ok_inv (f : Frame) (c : String) (g : Cell → Cell) (f2 : Frame)
    (h : f.mapCol c g = .ok f2) :
    ∃ i, colIdx? f.cols c = some i ∧ f2 = ⟨f.cols, f.rows.map (updAt i g)⟩ := by
  rw [Frame.mapCol] at h
  cases hi : colIdx? f.cols c with
  | none => rw [hi] at h; cases h
  | some i =>
    rw [hi] at h
    exact ⟨i, rfl, (Except.ok.inj h).symm⟩

theorem colIdxE_some (f : Frame) (c : String) (i : ℕ)
    (h : colIdx? f.cols c = some i) : f.colIdxE c = .ok i := by
  rw [Frame.colIdxE, h]

theorem colIdxE_ok_inv (f : Frame) (c : String) (i : ℕ)
    (h : f.colIdxE c = .ok i) : colIdx? f.cols c = some i := by
  rw [Frame.colIdxE] at h
  cases hi : colIdx? f.cols c with
  | none => rw [hi] at h; cases h
  | some j => rw [hi] at h; rw [Except.ok.inj h]

theorem toDatetime_ok_fix (dp : String → Option DateVal) (c v : Cell)
    (h : toDatetime dp c = .ok v) :
    toDatetime dp v = .ok v ∧ applyE (toDatetime dp) c = v := by
  cases c with
  | str s =>
    rw [toDatetime] at h
    cases hd : dp s with
    | none => rw [hd] at h; cases h
    | some d =>
      rw [hd] at h
      rcases Except.ok.inj h with rfl
      exact ⟨rfl, by simp [applyE, toDatetime, hd]⟩
  | num m e =>
    rcases Except.ok.inj h with rfl
    exact ⟨rfl, by simp [applyE, toDatetime]⟩
  | date d =>
    rcases Except.ok.inj h with rfl
    exact ⟨rfl, by simp [applyE, toDatetime]⟩
  | absent =>
    rcases Except.ok.inj h with rfl
    exact ⟨rfl, by simp [applyE, toDatetime]⟩

theorem coerceNum_idem (c : Cell) : coerceNum (coerceNum c) = coerceNum c := by
  cases c with
  | str s =>
    rw [coerceNum]
    cases hp : parseDec (stripNonNum s.data) with
    | none => rfl
    | some p => rfl
  | num m e => rfl
  | date d => rfl
  | absent => rfl

theorem dropDash_ne_dash (c : Cell) : dropDash c ≠ Cell.str "--" := by
  by_cases h : c = Cell.str "--" <;> simp [dropDash, h]

theorem dropDash_fillDash (c : Cell) (h : c ≠ Cell.str "--") :
    dropDash (fillDash c) = c := by
  by_cases ha : c = Cell.absent
  · subst ha; rfl
  · simp [fillDash, ha, dropDash, h]

theorem normalizeH_eq_ok (dp : String → Option DateVal) (f : Frame)
    (di ni ti oi : ℕ)
    (hdi : colIdx? f.cols "Transaction creation date" = some di)
    (hni : colIdx? f.cols "Net amount" = some ni)
    (hti : colIdx? f.cols "Item title" = some ti)
    (hoi : colIdx? f.cols "Order number" = some oi)
    (hdates : ∀ r ∈ f.rows, isOkE (toDatetime dp (getCell r di)) = true) :
    normalizeH dp f = .ok ⟨f.cols, normRows dp f.rows di ni ti oi⟩ := by
  have h1 := mapColE_ok f "Transaction creation date" (toDatetime dp) di hdi hdates
  have h2 := mapCol_some (⟨f.cols, f.rows.map (applyColE (toDatetime dp) di)⟩ : Frame)
    "Net amount" coerceNum ni hni
  have h3 := mapCol_some (⟨f.cols,
    (f.rows.map (applyColE (toDatetime dp) di)).map (updAt ni coerceNum)⟩ : Frame)
    "Item title" dropDash ti hti
  have h4 := colIdxE_some (⟨f.cols,
    ((f.rows.map (applyColE (toDatetime dp) di)).map (updAt ni coerceNum)).map
      (updAt ti dropDash)⟩ : Frame) "Order number" oi hoi
  have h5 := colIdxE_some (⟨f.cols,
    ((f.rows.map (applyColE (toDatetime dp) di)).map (updAt ni coerceNum)).map
      (updAt ti dropDash)⟩ : Frame) "Item title" ti hti
  have h6 := mapCol_some (⟨f.cols, backfillRows
    (((f.rows.map (applyColE (toDatetime dp) di)).map (updAt ni coerceNum)).map
      (updAt ti dropDash)) oi ti⟩ : Frame) "Item title" fillDash ti hti
  simp only [normalizeH, h1, ok_bind, mk_cols, mk_rows, h2, h3, h4, h5, h6]
  rfl

theorem normalizeH_ok_inv (dp : String → Option DateVal) (f g : Frame)
    (h : normalizeH dp f = .ok g) :
    ∃ di ni ti oi,
      colIdx? f.cols "Transaction creation date" = some di ∧
      colIdx? f.cols "Net amount" = some ni ∧
      colIdx? f.cols "Item title" = some ti ∧
      colIdx? f.cols "Order number" = some oi ∧
      (∀ r ∈ f.rows, isOkE (toDatetime dp (getCell r di)) = true) ∧
      g = ⟨f.cols, normRows dp f.rows di ni ti oi⟩ := by
  rw [normalizeH] at h
  cases h1 : f.mapColE "Transaction creation date" (toDatetime dp) with
  | error e => rw [h1, error_bind] at h; cases h
  | ok f1 =>
    rw [h1] at h
    simp only [ok_bind] at h
    obtain ⟨di, hdi, hdates, rfl⟩ := mapColE_ok_inv f _ _ f1 h1
    try simp only [mk_cols, mk_rows] at h
    cases h2 : (⟨f.cols, f.rows.map (applyColE (toDatetime dp) di)⟩ : Frame).mapCol
        "Net amount" coerceNum with
    | error e => rw [h2, error_bind] at h; cases h
    | ok f2 =>
      rw [h2] at h
      simp only [ok_bind] at h
      obtain ⟨ni, hni, rfl⟩ := mapCol_ok_inv _ _ _ f2 h2
      try simp only [mk_cols, mk_rows] at h
      cases h3 : (⟨f.cols,
          (f.rows.map (applyColE (toDatetime dp) di)).map (updAt ni coerceNum)⟩ :
            Frame).mapCol "Item title" dropDash with
      | error e => rw [h3, error_bind] at h; cases h
      | ok f3 =>
        rw [h3] at h
        simp only [ok_bind] at h
        obtain ⟨ti0, hti0, rfl⟩ := mapCol_ok_inv _ _ _ f3 h3
        try simp only [mk_cols, mk_rows] at h
        cases h4 : (⟨f.cols,
            ((f.rows.map (applyColE (toDatetime dp) di)).map (updAt ni coerceNum)).map
              (updAt ti0 dropDash)⟩ : Frame).colIdxE "Order number" with
        | error e => rw [h4, error_bind] at h; cases h
        | ok oi =>
          rw [h4] at h
          simp only [ok_bind] at h
          have hoi := colIdxE_ok_inv _ _ _ h4
          cases h5 : (⟨f.cols,
              ((f.rows.map (applyColE (toDatetime dp) di)).map (updAt ni coerceNum)).map
                (updAt ti0 dropDash)⟩ : Frame).colIdxE "Item title" with
          | error e => rw [h5, error_bind] at h; cases h
          | ok ti =>
            rw [h5] at h
            simp only [ok_bind] at h
            have hti := colIdxE_ok_inv _ _ _ h5
            obtain ⟨ti2, hti2, rfl⟩ := mapCol_ok_inv _ _ _ g h
            have he : ti2 = ti0 := by
              have ha : colIdx? f.cols "Item title" = some ti2 := hti2
              have hb : colIdx? f.cols "Item title" = some ti0 := hti0
              exact Option.some.inj (ha.symm.trans hb)
            have he2 : ti = ti0 := by
              have ha : colIdx? f.cols "Item title" = some ti := hti
              have hb : colIdx? f.cols "Item title" = some ti0 := hti0
              exact Option.some.inj (ha.symm.trans hb)
            refine ⟨di, ni, ti0, oi, hdi, hni, hti0, hoi, hdates, ?_⟩
            rw [he, he2]
            rfl

theorem normRows_eq_map (dp : String → Option DateVal) (rows : List (List Cell))
    (di ni ti oi : ℕ) :
    normRows dp rows di ni ti oi = rows.map (fun r =>
      updAt ti fillDash
        (if getCell (updAt ti dropDash (updAt ni coerceNum
            (applyColE (toDatetime dp) di r))) oi = Cell.absent
         then updAt ti dropDash (updAt ni coerceNum (applyColE (toDatetime dp) di r))
         else setCell (updAt ti dropDash (updAt ni coerceNum
             (applyColE (toDatetime dp) di r))) ti
           ((titleMap (hooldStage3 dp rows di ni ti) oi ti
             (getCell (updAt ti dropDash (updAt ni coerceNum
               (applyColE (toDatetime dp) di r))) oi)).getD Cell.absent))) := by
  rw [normRows, backfillRows, hooldStage3]
  simp only [List.map_map]
  rfl

/-- C2: row-count and order preservation — whenever the hoold normalizer
succeeds, the output has exactly as many rows as the input and each output
row is a function of the input row at the same position (the rows are a
`List.map` image of the input), so no row is added, dropped or reordered. -/
theorem normalize_preserves_rows (dp : String → Option DateVal) (f g : Frame)
    (h : normalizeH dp f = .ok g) :
    g.rows.length = f.rows.length ∧ ∃ φ, g.rows = f.rows.map φ := by
  obtain ⟨di, ni, ti, oi, _, _, _, _, _, rfl⟩ := normalizeH_ok_inv dp f g h
  constructor
  · simp [normRows, backfillRows, hooldStage3]
  · exact ⟨_, by
      simpa only [mk_rows] using normRows_eq_map dp f.rows di ni ti oi⟩

/-- Witness for C2: a concrete two-row ledger normalizes to `gOut2`, with
both rows kept in order. -/
theorem normalize_preserves_rows_witness :
    normalizeH isoDate cf2 = .ok gOut2 ∧
      (gOut2.rows.length = cf2.rows.length ∧ ∃ φ, gOut2.rows = cf2.rows.map φ) :=
  ⟨by decide, normalize_preserves_rows isoDate cf2 gOut2 (by decide)⟩

/-- C5 amended: a declared column missing from the input is a hard
failure — normalization returns an error and no partial frame (first
conjunct); an input carrying every declared column succeeds provided its
date column parses, while an unparseable date cell is a further hard
failure beyond the claim's only-schema-failure wording (second conjunct,
and the separate counterexample). -/
theorem normalize_schema_error (dp : String → Option DateVal) (f : Frame) :
    ((∃ c ∈ hooldRequiredCols, colIdx? f.cols c = none) →
      ∃ e, normalizeH dp f = .error e) ∧
    ((∀ c ∈ hooldRequiredCols, (colIdx? f.cols c).isSome = true) →
      (∀ di, colIdx? f.cols "Transaction creation date" = some di →
        ∀ r ∈ f.rows, isOkE (toDatetime dp (getCell r di)) = true) →
      ∃ g, normalizeH dp f = .ok g) := by
  constructor
  · rintro ⟨c, hc, hnone⟩
    cases h : normalizeH dp f with
    | error e => exact ⟨e, rfl⟩
    | ok g =>
      exfalso
      obtain ⟨di, ni, ti, oi, hdi, hni, hti, hoi, -, -⟩ := normalizeH_ok_inv dp f g h
      simp only [hooldRequiredCols, List.mem_cons, List.not_mem_nil, or_false] at hc
      rcases hc with rfl | rfl | rfl | rfl
      · rw [hdi] at hnone; cases hnone
      · rw [hni] at hnone; cases hnone
      · rw [hti] at hnone; cases hnone
      · rw [hoi] at hnone; cases hnone
  · intro hall hdates
    obtain ⟨di, hdi⟩ := Option.isSome_iff_exists.1
      (hall "Transaction creation date" (by simp [hooldRequiredCols]))
    obtain ⟨ni, hni⟩ := Option.isSome_iff_exists.1
      (hall "Net amount" (by simp [hooldRequiredCols]))
    obtain ⟨ti, hti⟩ := Option.isSome_iff_exists.1
      (hall "Item title" (by simp [hooldRequiredCols]))
    obtain ⟨oi, hoi⟩ := Option.isSome_iff_exists.1
      (hall "Order number" (by simp [hooldRequiredCols]))
    exact ⟨_, normalizeH_eq_ok dp f di ni ti oi hdi hni hti hoi (hdates di hdi)⟩

/-- C5 counterexample: `cf5bad` carries every declared column, yet
normalization fails all the same — its date cell `"abc"` does not parse,
so an error beyond the claim's "only missing columns fail" crosses the
boundary. -/
theorem normalize_raises_on_bad_date :
    (∀ c ∈ hooldRequiredCols, (colIdx? cf5bad.cols c).isSome = true) ∧
      normalizeH isoDate cf5bad = .error "date parse: abc" :=
  ⟨by decide, by decide⟩

/-- Witness for C5: the frame `cfMiss`, which lacks the date column, is
rejected with an error; the full-schema frame `cf2` with parseable dates
is normalized successfully. -/
theorem normalize_schema_error_witness :
    (∃ e, normalizeH isoDate cfMiss = .error e) ∧
      ∃ g, normalizeH isoDate cf2 = .ok g :=
  ⟨(normalize_schema_error isoDate cfMiss).1
      ⟨"Transaction creation date", by decide, by decide⟩,
    (normalize_schema_error isoDate cf2).2 (by decide) (by
      intro di hdi r hr
      have h0 : colIdx? cf2.cols "Transaction creation date" = some 0 := by decide
      rw [h0] at hdi
      rcases Option.some.inj hdi with rfl
      revert r
      decide)⟩

theorem isOkE_iff {ε α : Type} (e : Except ε α) :
    isOkE e = true ↔ ∃ a, e = .ok a := by
  cases e <;> simp [isOkE]

theorem getCell_ite_set (cond : Prop) [Decidable cond] (s : List Cell)
    (ti j : ℕ) (hne : ti ≠ j) (v : Cell) :
    getCell (if cond then s else setCell s ti v) j = getCell s j := by
  by_cases h : cond
  · rw [if_pos h]
  · rw [if_neg h]
    exact getCell_setCell_ne s ti j v hne

theorem ite_set_length (cond : Prop) [Decidable cond] (s : List Cell)
    (ti : ℕ) (v : Cell) :
    (if cond then s else setCell s ti v).length = s.length := by
  by_cases h : cond
  · rw [if_pos h]
  · rw [if_neg h]
    exact setCell_length s ti v

theorem applyColE_length (g : Cell → Except String Cell) (i : ℕ) (r : List Cell) :
    (applyColE g i r).length = r.length := by
  simp [applyColE, setCell]

theorem titleMap_some_inv (rows : List (List Cell)) (oi ti : ℕ) (k t : Cell)
    (h : titleMap rows oi ti k = some t) :
    ∃ r ∈ rows, getCell r oi = k ∧ k ≠ Cell.absent ∧ getCell r ti = t ∧
      t ≠ Cell.absent := by
  rw [titleMap] at h
  cases hf : rows.find? (fun r =>
      getCell r oi == k && !(getCell r oi == Cell.absent)
        && !(getCell r ti == Cell.absent)) with
  | none => rw [hf] at h; cases h
  | some r =>
    rw [hf] at h
    rcases Option.some.inj h with rfl
    have hmem := List.mem_of_find?_eq_some hf
    have hp := List.find?_some hf
    simp only [Bool.and_eq_true, beq_iff_eq, Bool.not_eq_true',
      beq_eq_false_iff_ne, ne_eq] at hp
    obtain ⟨⟨h1, h2⟩, h3⟩ := hp
    exact ⟨r, hmem, h1, h1 ▸ h2, rfl, h3⟩

theorem backfillRows_mem (rows : List (List Cell)) (oi ti : ℕ) (d : List Cell)
    (hd : d ∈ backfillRows rows oi ti) :
    ∃ s ∈ rows, d = if getCell s oi = Cell.absent then s
      else setCell s ti ((titleMap rows oi ti (getCell s oi)).getD Cell.absent) := by
  rw [backfillRows] at hd
  obtain ⟨s, hs, he⟩ := List.mem_map.1 hd
  exact ⟨s, hs, he.symm⟩

theorem titleMap_backfill_some (rows : List (List Cell)) (oi ti : ℕ)
    (hne : ti ≠ oi) (hlen : ∀ r ∈ rows, ti < r.length) (k t : Cell)
    (h : titleMap rows oi ti k = some t) :
    titleMap (backfillRows rows oi ti) oi ti k = some t := by
  obtain ⟨r0, hr0, hoeq, hkabs, htit, htabs⟩ := titleMap_some_inv rows oi ti k t h
  rw [titleMap, backfillRows, find?_map_comm]
  rw [find?_congr_mem _ (fun s => getCell s oi == k) rows ?_]
  · have hex : ∃ s, s ∈ rows ∧ (fun s => getCell s oi == k) s = true :=
      ⟨r0, hr0, by simp [hoeq]⟩
    have hsome : (rows.find? (fun s => getCell s oi == k)).isSome := by
      rw [List.find?_isSome]
      simpa using hex
    obtain ⟨s0, hs0⟩ := Option.isSome_iff_exists.1 hsome
    rw [hs0]
    have hs0k : getCell s0 oi = k := by
      have := List.find?_some hs0
      simpa using this
    have hs0mem := List.mem_of_find?_eq_some hs0
    simp only [Option.map_some']
    rw [if_neg (by rw [hs0k]; exact hkabs), hs0k, h]
    rw [getCell_setCell_self s0 ti _ (hlen s0 hs0mem)]
    rfl
  · intro s hs
    by_cases hke : getCell s oi = k
    · have hsabs : ¬ getCell s oi = Cell.absent := by rw [hke]; exact hkabs
      rw [if_neg hsabs, hke, h]
      have hget_oi : getCell (setCell s ti (Option.getD (some t) Cell.absent)) oi =
          getCell s oi := getCell_setCell_ne s ti oi _ hne
      have hget_ti : getCell (setCell s ti (Option.getD (some t) Cell.absent)) ti =
          t := by
        rw [getCell_setCell_self s ti _ (hlen s hs)]
        rfl
      rw [hget_oi, hget_ti, hke]
      simp only [beq_self_eq_true, Bool.true_and]
      rw [beq_eq_false_iff_ne.2 hkabs, beq_eq_false_iff_ne.2 htabs]
      simp [hke]
    · have h0 : (getCell s oi == k) = false := beq_eq_false_iff_ne.2 hke
      by_cases hsabs : getCell s oi = Cell.absent
      · rw [if_pos hsabs, h0]
        simp [hke]
      · rw [if_neg hsabs]
        have hget_oi : getCell (setCell s ti
            ((titleMap rows oi ti (getCell s oi)).getD Cell.absent)) oi =
            getCell s oi := getCell_setCell_ne s ti oi _ hne
        rw [hget_oi, h0]
        simp [hke]

theorem titleMap_backfill_none (rows : List (List Cell)) (oi ti : ℕ)
    (hne : ti ≠ oi) (hlen : ∀ r ∈ rows, ti < r.length) (k : Cell)
    (hk : k ≠ Cell.absent) (h : titleMap rows oi ti k = none) :
    titleMap (backfillRows rows oi ti) oi ti k = none := by
  rw [titleMap]
  rw [List.find?_eq_none.2 ?_]
  · rfl
  · intro x hx
    obtain ⟨s, hs, rfl⟩ := backfillRows_mem rows oi ti x hx
    by_cases hke : getCell s oi = k
    · have hsabs : ¬ getCell s oi = Cell.absent := by rw [hke]; exact hk
      rw [if_neg hsabs, hke, h]
      simp only [Option.getD_none, Bool.and_eq_true, beq_iff_eq,
        Bool.not_eq_true', beq_eq_false_iff_ne, ne_eq, not_and]
      intro _ hC
      exact hC (getCell_setCell_self s ti Cell.absent (hlen s hs))
    · by_cases hsabs : getCell s oi = Cell.absent
      · rw [if_pos hsabs]
        simp [hke]
      · rw [if_neg hsabs]
        have hget_oi : getCell (setCell s ti
            ((titleMap rows oi ti (getCell s oi)).getD Cell.absent)) oi =
            getCell s oi := getCell_setCell_ne s ti oi _ hne
        simp [hget_oi, hke]

theorem backfillRows_idem (rows : List (List Cell)) (oi ti : ℕ)
    (hne : ti ≠ oi) (hlen : ∀ r ∈ rows, ti < r.length) :
    backfillRows (backfillRows rows oi ti) oi ti = backfillRows rows oi ti := by
  conv_lhs => rw [backfillRows]
  apply map_eq_self_of
  intro d hd
  obtain ⟨s, hs, hds⟩ := backfillRows_mem rows oi ti d hd
  have hdoi : getCell d oi = getCell s oi := by
    rw [hds]
    exact getCell_ite_set _ s ti oi hne _
  show (if getCell d oi = Cell.absent then d
    else setCell d ti ((titleMap (backfillRows rows oi ti) oi ti
      (getCell d oi)).getD Cell.absent)) = d
  by_cases hk : getCell s oi = Cell.absent
  · rw [hdoi, if_pos hk]
  · rw [hdoi, if_neg hk]
    cases hmt : titleMap rows oi ti (getCell s oi) with
    | some t =>
      rw [titleMap_backfill_some rows oi ti hne hlen _ t hmt]
      have hd2 : d = setCell s ti t := by rw [hds, if_neg hk, hmt]; rfl
      rw [hd2]
      show setCell (setCell s ti t) ti (Option.getD (some t) Cell.absent) =
        setCell s ti t
      rw [setCell_setCell]
      rfl
    | none =>
      rw [titleMap_backfill_none rows oi ti hne hlen _ hk hmt]
      have hd2 : d = setCell s ti Cell.absent := by rw [hds, if_neg hk, hmt]; rfl
      rw [hd2]
      show setCell (setCell s ti Cell.absent) ti (Option.getD none Cell.absent) =
        setCell s ti Cell.absent
      rw [setCell_setCell]
      rfl

theorem backfill_title_ok (rows : List (List Cell)) (oi ti : ℕ)
    (hlen : ∀ r ∈ rows, ti < r.length)
    (hsrc : ∀ r ∈ rows, getCell r ti ≠ Cell.str "--") :
    ∀ d ∈ backfillRows rows oi ti, getCell d ti ≠ Cell.str "--" := by
  intro d hd
  obtain ⟨s, hs, rfl⟩ := backfillRows_mem rows oi ti d hd
  by_cases hk : getCell s oi = Cell.absent
  · rw [if_pos hk]
    exact hsrc s hs
  · rw [if_neg hk]
    rw [getCell_setCell_self s ti _ (hlen s hs)]
    cases hmt : titleMap rows oi ti (getCell s oi) with
    | none => simp
    | some t =>
      obtain ⟨r0, hr0, -, -, htit, -⟩ := titleMap_some_inv rows oi ti _ t hmt
      have := hsrc r0 hr0
      rw [htit] at this
      simpa using this

theorem normRows_cells (dp : String → Option DateVal) (rows : List (List Cell))
    (di ni ti oi : ℕ)
    (hdt : ti ≠ di) (hnt : ti ≠ ni) (hnd : ni ≠ di) (hto : ti ≠ oi)
    (hno : ni ≠ oi) (hdo : di ≠ oi)
    (hdib : ∀ r ∈ rows, di < r.length) (hnib : ∀ r ∈ rows, ni < r.length) :
    ∀ x ∈ normRows dp rows di ni ti oi, ∃ r ∈ rows,
      x.length = r.length ∧
      getCell x di = applyE (toDatetime dp) (getCell r di) ∧
      getCell x ni = coerceNum (getCell r ni) ∧
      getCell x oi = getCell r oi := by
  intro x hx
  rw [normRows_eq_map] at hx
  obtain ⟨r, hr, rfl⟩ := List.mem_map.1 hx
  have hA : (applyColE (toDatetime dp) di r).length = r.length :=
    applyColE_length _ di r
  have h2 : (updAt ni coerceNum (applyColE (toDatetime dp) di r)).length =
      r.length := by rw [updAt_length, hA]
  have h3 : (updAt ti dropDash (updAt ni coerceNum
      (applyColE (toDatetime dp) di r))).length = r.length := by
    rw [updAt_length, h2]
  refine ⟨r, hr, ?_, ?_, ?_, ?_⟩
  · rw [updAt_length, ite_set_length, h3]
  · rw [getCell_updAt_ne ti di _ _ hdt]
    rw [getCell_ite_set _ _ _ _ hdt]
    rw [getCell_updAt_ne ti di _ _ hdt]
    rw [getCell_updAt_ne ni di _ _ hnd]
    exact getCell_setCell_self r di _ (hdib r hr)
  · rw [getCell_updAt_ne ti ni _ _ hnt]
    rw [getCell_ite_set _ _ _ _ hnt]
    rw [getCell_updAt_ne ti ni _ _ hnt]
    rw [getCell_updAt_self ni coerceNum _ (by rw [hA]; exact hnib r hr)]
    exact congrArg coerceNum (getCell_setCell_ne r di ni _ (fun e => hnd e.symm))
  · rw [getCell_updAt_ne ti oi _ _ hto]
    rw [getCell_ite_set _ _ _ _ hto]
    rw [getCell_updAt_ne ti oi _ _ hto]
    rw [getCell_updAt_ne ni oi _ _ hno]
    exact getCell_setCell_ne r di oi _ hdo

/-- C6: idempotence — applying the hoold normalizer to its own output
yields the output unchanged: the dates are already parsed, the numeric
column is a coercion fixpoint, and re-running the sentinel replacement,
title reference and backfill reproduces the same titles. -/
theorem normalize_idempotent (dp : String → Option DateVal) (f g : Frame)
    (hwf : f.WF) (h : normalizeH dp f = .ok g) :
    normalizeH dp g = .ok g := by
  obtain ⟨di, ni, ti, oi, hdi, hni, hti, hoi, hdates, rfl⟩ :=
    normalizeH_ok_inv dp f g h
  have hdiL := (colIdx?_get _ _ _ hdi).1
  have hniL := (colIdx?_get _ _ _ hni).1
  have htiL := (colIdx?_get _ _ _ hti).1
  have hoiL := (colIdx?_get _ _ _ hoi).1
  have htd : ti ≠ di := colIdx?_ne f.cols "Item title"
    "Transaction creation date" ti di hti hdi (by decide)
  have htn : ti ≠ ni := colIdx?_ne f.cols "Item title" "Net amount" ti ni
    hti hni (by decide)
  have hto : ti ≠ oi := colIdx?_ne f.cols "Item title" "Order number" ti oi
    hti hoi (by decide)
  have hnd : ni ≠ di := colIdx?_ne f.cols "Net amount"
    "Transaction creation date" ni di hni hdi (by decide)
  have hno : ni ≠ oi := colIdx?_ne f.cols "Net amount" "Order number" ni oi
    hni hoi (by decide)
  have hdo : di ≠ oi := colIdx?_ne f.cols "Transaction creation date"
    "Order number" di oi hdi hoi (by decide)
  have hdib : ∀ r ∈ f.rows, di < r.length := fun r hr => by
    rw [hwf r hr]; exact hdiL
  have hnib : ∀ r ∈ f.rows, ni < r.length := fun r hr => by
    rw [hwf r hr]; exact hniL
  have hcells := normRows_cells dp f.rows di ni ti oi htd htn hnd hto hno hdo
    hdib hnib
  have hfixE : ∀ x ∈ normRows dp f.rows di ni ti oi,
      toDatetime dp (getCell x di) = .ok (getCell x di) := by
    intro x hx
    obtain ⟨r, hr, -, hdx, -, -⟩ := hcells x hx
    obtain ⟨v, hv⟩ := (isOkE_iff _).1 (hdates r hr)
    obtain ⟨hfix, happ⟩ := toDatetime_ok_fix dp _ v hv
    rw [hdx, happ]
    exact hfix
  have hdatesE : ∀ x ∈ normRows dp f.rows di ni ti oi,
      isOkE (toDatetime dp (getCell x di)) = true := by
    intro x hx
    rw [isOkE_iff]
    exact ⟨_, hfixE x hx⟩
  have hS3len : ∀ s ∈ hooldStage3 dp f.rows di ni ti, ti < s.length := by
    intro s hs
    rw [hooldStage3] at hs
    obtain ⟨s2, hs2, rfl⟩ := List.mem_map.1 hs
    obtain ⟨s1, hs1, rfl⟩ := List.mem_map.1 hs2
    obtain ⟨r, hr, rfl⟩ := List.mem_map.1 hs1
    rw [updAt_length, updAt_length, applyColE_length, hwf r hr]
    exact htiL
  have hS3dash : ∀ s ∈ hooldStage3 dp f.rows di ni ti,
      getCell s ti ≠ Cell.str "--" := by
    intro s hs
    rw [hooldStage3] at hs
    obtain ⟨s2, hs2, rfl⟩ := List.mem_map.1 hs
    have hlen2 : ti < s2.length := by
      obtain ⟨s1, hs1, rfl⟩ := List.mem_map.1 hs2
      obtain ⟨r, hr, rfl⟩ := List.mem_map.1 hs1
      rw [updAt_length, applyColE_length, hwf r hr]
      exact htiL
    rw [getCell_updAt_self ti dropDash s2 hlen2]
    exact dropDash_ne_dash _
  have hDlen : ∀ d ∈ backfillRows (hooldStage3 dp f.rows di ni ti) oi ti,
      ti < d.length := by
    intro d hd
    obtain ⟨s, hs, rfl⟩ := backfillRows_mem _ _ _ d hd
    rw [ite_set_length]
    exact hS3len s hs
  have hDdash := backfill_title_ok (hooldStage3 dp f.rows di ni ti) oi ti
    hS3len hS3dash
  have hstepA : (normRows dp f.rows di ni ti oi).map
      (applyColE (toDatetime dp) di) = normRows dp f.rows di ni ti oi := by
    apply map_eq_self_of
    intro x hx
    have hfix := hfixE x hx
    show setCell x di (applyE (toDatetime dp) (getCell x di)) = x
    have happ : applyE (toDatetime dp) (getCell x di) = getCell x di := by
      rw [applyE, hfix]
    rw [happ, setCell_getCell_self]
  have hstepB : (normRows dp f.rows di ni ti oi).map (updAt ni coerceNum) =
      normRows dp f.rows di ni ti oi := by
    apply map_eq_self_of
    intro x hx
    obtain ⟨r, hr, -, -, hnx, -⟩ := hcells x hx
    show setCell x ni (coerceNum (getCell x ni)) = x
    rw [hnx, coerceNum_idem, ← hnx, setCell_getCell_self]
  have hstepC : (normRows dp f.rows di ni ti oi).map (updAt ti dropDash) =
      backfillRows (hooldStage3 dp f.rows di ni ti) oi ti := by
    rw [normRows, List.map_map]
    apply map_eq_self_of
    intro d hd
    have hlen := hDlen d hd
    have hdash := hDdash d hd
    show setCell (setCell d ti (fillDash (getCell d ti))) ti
      (dropDash (getCell (setCell d ti (fillDash (getCell d ti))) ti)) = d
    rw [getCell_setCell_self d ti _ hlen]
    rw [setCell_setCell, dropDash_fillDash _ hdash, setCell_getCell_self]
  have hgoal : normRows dp (normRows dp f.rows di ni ti oi) di ni ti oi =
      normRows dp f.rows di ni ti oi := by
    conv_lhs => rw [normRows, hooldStage3]
    rw [hstepA, hstepB, hstepC]
    rw [backfillRows_idem (hooldStage3 dp f.rows di ni ti) oi ti hto hS3len]
    rfl
  have happly := normalizeH_eq_ok dp
    ⟨f.cols, normRows dp f.rows di ni ti oi⟩ di ni ti oi hdi hni hti hoi hdatesE
  rw [happly]
  simp only [mk_cols, mk_rows, hgoal]

/-- Witness for C6: the concrete ledger `cf2` normalizes to `gOut2`, and
normalizing `gOut2` again returns `gOut2` itself. -/
theorem normalize_idempotent_witness :
    (cf2.WF ∧ normalizeH isoDate cf2 = .ok gOut2) ∧
      normalizeH isoDate gOut2 = .ok gOut2 :=
  ⟨⟨by decide, by decide⟩,
    normalize_idempotent isoDate cf2 gOut2 (by decide) (by decide)⟩

theorem map_congr_mem {α β : Type} (f g : α → β) :
    ∀ (l : List α), (∀ x ∈ l, f x = g x) → l.map f = l.map g := by
  intro l
  induction l with
  | nil => intro _; rfl
  | cons a as ih =>
    intro h
    simp only [List.map_cons]
    rw [h a (by simp), ih (fun x hx => h x (by simp [hx]))]

theorem colIdx?_append_left : ∀ (cols cols2 : List String) (c : String) (i : ℕ),
    colIdx? cols c = some i → colIdx? (cols ++ cols2) c = some i := by
  intro cols
  induction cols with
  | nil => intro cols2 c i h; simp [colIdx?] at h
  | cons a as ih =>
    intro cols2 c i h
    by_cases ha : a = c
    · rw [colIdx?, if_pos ha] at h
      rw [List.cons_append, colIdx?, if_pos ha]
      exact h
    · rw [colIdx?, if_neg ha] at h
      rcases Option.map_eq_some'.1 h with ⟨j, hj, rfl⟩
      rw [List.cons_append, colIdx?, if_neg ha, ih cols2 c j hj]
      rfl

theorem getCell_append_lt : ∀ (r r2 : List Cell) (j : ℕ), j < r.length →
    getCell (r ++ r2) j = getCell r j := by
  intro r
  induction r with
  | nil => intro r2 j h; simp at h
  | cons a as ih =>
    intro r2 j h
    cases j with
    | zero => rfl
    | succ j2 =>
      show getCell (as ++ r2) j2 = getCell as j2
      exact ih r2 j2 (by simpa using h)

theorem zip_self_map {β : Type} (h : List Cell → β) :
    ∀ (l : List (List Cell)), l.zip (l.map h) = l.map (fun a => (a, h a)) := by
  intro l
  induction l with
  | nil => rfl
  | cons a as ih => simp [ih]

theorem colVals_eq_of_cols_eq (f f2 : Frame) (c : String)
    (hcols : f2.cols = f.cols)
    (hrows : ∀ i, colIdx? f.cols c = some i →
      f2.rows.map (fun r => getCell r i) = f.rows.map (fun r => getCell r i)) :
    colVals f2 c = colVals f c := by
  rw [colVals, colVals, hcols]
  cases hj : colIdx? f.cols c with
  | none => rfl
  | some j => simp [hrows j hj]

theorem colVals_mapCol_ne (f f2 : Frame) (c c2 : String) (g : Cell → Cell)
    (h : f.mapCol c g = .ok f2) (hne : c2 ≠ c) :
    colVals f2 c2 = colVals f c2 := by
  obtain ⟨i, hi, rfl⟩ := mapCol_ok_inv f c g f2 h
  apply colVals_eq_of_cols_eq
  · rfl
  · intro j hj
    simp only [mk_rows, List.map_map]
    apply map_congr_mem
    intro r _
    exact getCell_updAt_ne i j g r (colIdx?_ne f.cols c c2 i j hi hj
      (fun e => hne e.symm))

theorem colVals_mapColE_ne (f f2 : Frame) (c c2 : String)
    (g : Cell → Except String Cell)
    (h : f.mapColE c g = .ok f2) (hne : c2 ≠ c) :
    colVals f2 c2 = colVals f c2 := by
  obtain ⟨i, hi, -, rfl⟩ := mapColE_ok_inv f c g f2 h
  apply colVals_eq_of_cols_eq
  · rfl
  · intro j hj
    simp only [mk_rows, List.map_map]
    apply map_congr_mem
    intro r _
    exact getCell_setCell_ne r i j _ (colIdx?_ne f.cols c c2 i j hi hj
      (fun e => hne e.symm))

theorem colVals_mapCol_self (f f2 : Frame) (c : String) (g : Cell → Cell)
    (hwf : f.WF) (h : f.mapCol c g = .ok f2) :
    colVals f2 c = (colVals f c).map (List.map g) := by
  obtain ⟨i, hi, rfl⟩ := mapCol_ok_inv f c g f2 h
  rw [colVals, colVals, mk_cols, hi]
  simp only [Option.map_some', mk_rows, List.map_map]
  have : ∀ r ∈ f.rows, getCell (updAt i g r) i = g (getCell r i) := by
    intro r hr
    exact getCell_updAt_self i g r (by
      rw [hwf r hr]; exact (colIdx?_get f.cols c i hi).1)
  have h2 : List.map ((fun r => getCell r i) ∘ updAt i g) f.rows =
      List.map (g ∘ fun r => getCell r i) f.rows := by
    apply map_congr_mem
    intro r hr
    exact this r hr
  rw [h2]

theorem WF_mapCol (f f2 : Frame) (c : String) (g : Cell → Cell)
    (hwf : f.WF) (h : f.mapCol c g = .ok f2) : f2.WF := by
  obtain ⟨i, hi, rfl⟩ := mapCol_ok_inv f c g f2 h
  intro r hr
  simp only [mk_rows] at hr
  obtain ⟨r0, hr0, rfl⟩ := List.mem_map.1 hr
  rw [mk_cols, updAt_length]
  exact hwf r0 hr0

theorem WF_mapColE (f f2 : Frame) (c : String) (g : Cell → Except String Cell)
    (hwf : f.WF) (h : f.mapColE c g = .ok f2) : f2.WF := by
  obtain ⟨i, hi, -, rfl⟩ := mapColE_ok_inv f c g f2 h
  intro r hr
  simp only [mk_rows] at hr
  obtain ⟨r0, hr0, rfl⟩ := List.mem_map.1 hr
  rw [mk_cols, applyColE_length]
  exact hwf r0 hr0

theorem mapCol_cols (f f2 : Frame) (c : String) (g : Cell → Cell)
    (h : f.mapCol c g = .ok f2) : f2.cols = f.cols := by
  obtain ⟨i, hi, rfl⟩ := mapCol_ok_inv f c g f2 h
  rfl

theorem mapColE_cols (f f2 : Frame) (c : String) (g : Cell → Except String Cell)
    (h : f.mapColE c g = .ok f2) : f2.cols = f.cols := by
  obtain ⟨i, hi, -, rfl⟩ := mapColE_ok_inv f c g f2 h
  rfl

theorem colVals_backfill_ne (f : Frame) (oi ti : ℕ) (c2 : String)
    (hti : colIdx? f.cols "Item title" = some ti)
    (hne : c2 ≠ "Item title") :
    colVals ⟨f.cols, backfillRows f.rows oi ti⟩ c2 = colVals f c2 := by
  apply colVals_eq_of_cols_eq
  · rfl
  · intro j hj
    rw [mk_rows, backfillRows, List.map_map]
    apply map_congr_mem
    intro r _
    exact getCell_ite_set _ _ _ _
      (colIdx?_ne f.cols "Item title" c2 ti j hti hj (fun e => hne e.symm)) _

theorem WF_backfill (f : Frame) (oi ti : ℕ) (hwf : f.WF) :
    (⟨f.cols, backfillRows f.rows oi ti⟩ : Frame).WF := by
  intro r hr
  rw [mk_rows] at hr
  obtain ⟨s, hs, rfl⟩ := backfillRows_mem f.rows oi ti r hr
  rw [mk_cols, ite_set_length]
  exact hwf s hs

theorem mapColIfPresent_cols (f : Frame) (c : String) (g : Cell → Cell) :
    (f.mapColIfPresent c g).cols = f.cols := by
  rw [Frame.mapColIfPresent]
  cases hi : colIdx? f.cols c with
  | none => rfl
  | some i => rfl

theorem WF_mapColIfPresent (f : Frame) (c : String) (g : Cell → Cell)
    (hwf : f.WF) : (f.mapColIfPresent c g).WF := by
  rw [Frame.mapColIfPresent]
  cases hi : colIdx? f.cols c with
  | none => exact hwf
  | some i =>
    intro r hr
    rw [mk_rows] at hr
    obtain ⟨r0, hr0, rfl⟩ := List.mem_map.1 hr
    rw [mk_cols, updAt_length]
    exact hwf r0 hr0

theorem colVals_mapColIfPresent_ne (f : Frame) (c c2 : String) (g : Cell → Cell)
    (hne : c2 ≠ c) :
    colVals (f.mapColIfPresent c g) c2 = colVals f c2 := by
  rw [Frame.mapColIfPresent]
  cases hi : colIdx? f.cols c with
  | none => rfl
  | some i =>
    apply colVals_eq_of_cols_eq
    · rfl
    · intro j hj
      rw [mk_rows, List.map_map]
      apply map_congr_mem
      intro r _
      exact getCell_updAt_ne i j g r (colIdx?_ne f.cols c c2 i j hi hj
        (fun e => hne e.symm))

theorem foldl_ifPresent_cols (g : Cell → Cell) :
    ∀ (cs : List String) (f : Frame),
      (cs.foldl (fun acc c => acc.mapColIfPresent c g) f).cols = f.cols := by
  intro cs
  induction cs with
  | nil => intro f; rfl
  | cons c cs ih =>
    intro f
    rw [List.foldl_cons, ih, mapColIfPresent_cols]

theorem WF_foldl_ifPresent (g : Cell → Cell) :
    ∀ (cs : List String) (f : Frame), f.WF →
      (cs.foldl (fun acc c => acc.mapColIfPresent c g) f).WF := by
  intro cs
  induction cs with
  | nil => intro f h; exact h
  | cons c cs ih =>
    intro f h
    rw [List.foldl_cons]
    exact ih _ (WF_mapColIfPresent f c g h)

theorem colVals_foldl_ifPresent_ne (g : Cell → Cell) :
    ∀ (cs : List String) (f : Frame) (c2 : String), c2 ∉ cs →
      colVals (cs.foldl (fun acc c => acc.mapColIfPresent c g) f) c2 =
        colVals f c2 := by
  intro cs
  induction cs with
  | nil => intro f c2 _; rfl
  | cons c cs ih =>
    intro f c2 hc2
    rw [List.foldl_cons, ih _ c2 (fun h => hc2 (List.mem_cons_of_mem c h)),
      colVals_mapColIfPresent_ne f c c2 g (fun h => hc2 (h ▸ List.mem_cons_self c cs))]

theorem applyFillDashCols_inv :
    ∀ (cs : List String) (f f2 : Frame),
      applyFillDashCols cs f = .ok f2 →
      f2.cols = f.cols ∧ (f.WF → f2.WF) ∧
        ∀ c2, c2 ∉ cs → colVals f2 c2 = colVals f c2 := by
  intro cs
  induction cs with
  | nil =>
    intro f f2 h
    rcases Except.ok.inj h with rfl
    exact ⟨rfl, fun h => h, fun _ _ => rfl⟩
  | cons c cs ih =>
    intro f f2 h
    rw [applyFillDashCols] at h
    cases hm : f.mapCol c fillDash with
    | error e => rw [hm] at h; cases h
    | ok fmid =>
      rw [hm] at h
      obtain ⟨h1, h2, h3⟩ := ih fmid f2 h
      refine ⟨h1.trans (mapCol_cols f fmid c fillDash hm), ?_, ?_⟩
      · intro hwf
        exact h2 (WF_mapCol f fmid c fillDash hwf hm)
      · intro c2 hc2
        rw [h3 c2 (fun hh => hc2 (List.mem_cons_of_mem c hh)),
          colVals_mapCol_ne f fmid c c2 fillDash hm
            (fun hh => hc2 (hh ▸ List.mem_cons_self c cs))]

theorem applyFillDashCols_fill :
    ∀ (cs : List String), cs.Nodup → ∀ (f f2 : Frame), f.WF →
      applyFillDashCols cs f = .ok f2 →
      ∀ c ∈ cs, colVals f2 c = (colVals f c).map (List.map fillDash) := by
  intro cs
  induction cs with
  | nil => intro _ f f2 _ _ c hc; simp at hc
  | cons c0 cs ih =>
    intro hnodup f f2 hwf h c hc
    rw [applyFillDashCols] at h
    cases hm : f.mapCol c0 fillDash with
    | error e => rw [hm] at h; cases h
    | ok fmid =>
      rw [hm] at h
      rcases List.mem_cons.1 hc with rfl | hc2
      · have hnotin : c ∉ cs := (List.nodup_cons.1 hnodup).1
        obtain ⟨-, -, h3⟩ := applyFillDashCols_inv cs fmid f2 h
        rw [h3 c hnotin]
        exact colVals_mapCol_self f fmid c fillDash hwf hm
      · have hne : c ≠ c0 := by
          intro e
          subst e
          exact (List.nodup_cons.1 hnodup).1 hc2
        rw [ih (List.nodup_cons.1 hnodup).2 fmid f2
          (WF_mapCol f fmid c0 fillDash hwf hm) h c hc2,
          colVals_mapCol_ne f fmid c0 c fillDash hm hne]

theorem applyFillDashCols_present :
    ∀ (cs : List String) (f f2 : Frame), applyFillDashCols cs f = .ok f2 →
      ∀ c ∈ cs, ∃ i, colIdx? f.cols c = some i := by
  intro cs
  induction cs with
  | nil => intro f f2 _ c hc; simp at hc
  | cons c0 cs ih =>
    intro f f2 h c hc
    rw [applyFillDashCols] at h
    cases hm : f.mapCol c0 fillDash with
    | error e => rw [hm] at h; cases h
    | ok fmid =>
      rw [hm] at h
      rcases List.mem_cons.1 hc with rfl | hc2
      · obtain ⟨i, hi, -⟩ := mapCol_ok_inv f _ fillDash fmid hm
        exact ⟨i, hi⟩
      · obtain ⟨i, hi⟩ := ih fmid f2 h c hc2
        rw [mapCol_cols f fmid c0 fillDash hm] at hi
        exact ⟨i, hi⟩

theorem addTotalFees_inv (f f2 : Frame) (hwf : f.WF)
    (h : addTotalFees f = .ok f2) :
    (("Total Fees" ∈ f.cols → f2.cols = f.cols) ∧
      ("Total Fees" ∉ f.cols → f2.cols = f.cols ++ ["Total Fees"])) ∧
    f2.WF ∧
    (∀ c2, c2 ∈ f.cols → c2 ≠ "Total Fees" → colVals f2 c2 = colVals f c2) := by
  rw [addTotalFees] at h
  cases hm : mapO (colIdx? f.cols) genFeeCols with
  | none => rw [hm] at h; cases h
  | some idxs =>
    rw [hm] at h
    rcases Except.ok.inj h with rfl
    cases hti : colIdx? f.cols "Total Fees" with
    | some i =>
      have hmem : "Total Fees" ∈ f.cols := by
        by_contra hnot
        rw [(colIdx?_eq_none_iff f.cols "Total Fees").2 hnot] at hti
        cases hti
      have haddcol : f.addCol "Total Fees" (f.rows.map (fun r =>
          Cell.num (sumDec (idxs.filterMap (fun j => cellDec (getCell r j)))).1
            (sumDec (idxs.filterMap (fun j => cellDec (getCell r j)))).2)) =
          ⟨f.cols, (f.rows.zip (f.rows.map (fun r =>
            Cell.num (sumDec (idxs.filterMap (fun j => cellDec (getCell r j)))).1
              (sumDec (idxs.filterMap (fun j => cellDec (getCell r j)))).2))).map
            (fun p => setCell p.1 i p.2)⟩ := by
        rw [Frame.addCol, hti]
      rw [haddcol]
      have hframe : ((f.rows.zip (f.rows.map (fun r =>
          Cell.num (sumDec (idxs.filterMap (fun j => cellDec (getCell r j)))).1
            (sumDec (idxs.filterMap (fun j => cellDec (getCell r j)))).2))).map
          (fun p => setCell p.1 i p.2)) = f.rows.map (fun r => setCell r i
            (Cell.num (sumDec (idxs.filterMap (fun j => cellDec (getCell r j)))).1
              (sumDec (idxs.filterMap (fun j => cellDec (getCell r j)))).2)) := by
        rw [zip_self_map, List.map_map]
        rfl
      rw [hframe]
      refine ⟨⟨fun _ => rfl, fun hnot => absurd hmem hnot⟩, ?_, ?_⟩
      · intro r hr
        rw [mk_rows] at hr
        obtain ⟨r0, hr0, rfl⟩ := List.mem_map.1 hr
        rw [mk_cols, setCell_length]
        exact hwf r0 hr0
      · intro c2 hc2mem hc2ne
        apply colVals_eq_of_cols_eq
        · rfl
        · intro j hj
          rw [mk_rows, List.map_map]
          apply map_congr_mem
          intro r _
          exact getCell_setCell_ne r i j _
            (colIdx?_ne f.cols "Total Fees" c2 i j hti hj (fun e => hc2ne e.symm))
    | none =>
      have hnotmem : "Total Fees" ∉ f.cols := (colIdx?_eq_none_iff f.cols _).1 hti
      have haddcol : f.addCol "Total Fees" (f.rows.map (fun r =>
          Cell.num (sumDec (idxs.filterMap (fun j => cellDec (getCell r j)))).1
            (sumDec (idxs.filterMap (fun j => cellDec (getCell r j)))).2)) =
          ⟨f.cols ++ ["Total Fees"], (f.rows.zip (f.rows.map (fun r =>
            Cell.num (sumDec (idxs.filterMap (fun j => cellDec (getCell r j)))).1
              (sumDec (idxs.filterMap (fun j => cellDec (getCell r j)))).2))).map
            (fun p => p.1 ++ [p.2])⟩ := by
        rw [Frame.addCol, hti]
      rw [haddcol]
      have hframe : ((f.rows.zip (f.rows.map (fun r =>
          Cell.num (sumDec (idxs.filterMap (fun j => cellDec (getCell r j)))).1
            (sumDec (idxs.filterMap (fun j => cellDec (getCell r j)))).2))).map
          (fun p => p.1 ++ [p.2])) = f.rows.map (fun r => r ++
            [Cell.num (sumDec (idxs.filterMap (fun j => cellDec (getCell r j)))).1
              (sumDec (idxs.filterMap (fun j => cellDec (getCell r j)))).2]) := by
        rw [zip_self_map, List.map_map]
        rfl
      rw [hframe]
      refine ⟨⟨fun hmem => absurd hmem hnotmem, fun _ => rfl⟩, ?_, ?_⟩
      · intro r hr
        rw [mk_rows] at hr
        obtain ⟨r0, hr0, rfl⟩ := List.mem_map.1 hr
        rw [mk_cols, List.length_append, List.length_append, hwf r0 hr0]
        rfl
      · intro c2 hc2mem hc2ne
        rw [colVals, colVals, mk_cols]
        cases hj : colIdx? f.cols c2 with
        | none =>
          exact absurd hc2mem ((colIdx?_eq_none_iff f.cols c2).1 hj)
        | some j =>
          rw [colIdx?_append_left f.cols ["Total Fees"] c2 j hj]
          simp only [Option.map_some', mk_rows, List.map_map]
          have hjlen : j < f.cols.length := (colIdx?_get f.cols c2 j hj).1
          congr 1
          apply map_congr_mem
          intro r hr
          show getCell (r ++ [Cell.num _ _]) j = getCell r j
          exact getCell_append_lt r _ j (by rw [hwf r hr]; exact hjlen)

/-- C4 amended: frame condition of the `gen_dash_app_1.py` normalizer.
On success, (1) a `Total Fees` column is appended on the right when absent
from the input (and the header is otherwise unchanged), so the declared
output contract gains a derived column; (2) every input column outside the
touched set — the date column, the title column, the declared monetary
columns, the nine metadata columns, `Total Fees` — keeps exactly its input
values; (3) each of the nine metadata columns is exactly `'--'`-filled:
its output values are its input values mapped through `fillDash`, so a
buyer (or other metadata) cell does change whenever it was absent,
refuting the claim that buyer and other metadata hold the same value. -/
theorem gen_normalize_frame_condition (dp : String → Option DateVal)
    (f g : Frame) (hwf : f.WF) (h : genNormalize dp f = .ok g) :
    (("Total Fees" ∈ f.cols → g.cols = f.cols) ∧
      ("Total Fees" ∉ f.cols → g.cols = f.cols ++ ["Total Fees"])) ∧
    (∀ c2, c2 ∈ f.cols → c2 ∉ genTouchedCols →
      colVals g c2 = colVals f c2) ∧
    (∀ c ∈ genFillDashCols,
      colVals g c = (colVals f c).map (List.map fillDash)) := by
  rw [genNormalize] at h
  cases h1 : f.mapColE "Order creation date" (toDatetime dp) with
  | error e => rw [h1, error_bind] at h; cases h
  | ok f1 =>
    rw [h1] at h
    simp only [ok_bind] at h
    cases h3 : (applyNumericCols f1).mapCol "Item title" dropDash with
    | error e => rw [h3, error_bind] at h; cases h
    | ok f3 =>
      rw [h3] at h
      simp only [ok_bind] at h
      cases h4 : f3.colIdxE "Order number" with
      | error e => rw [h4, error_bind] at h; cases h
      | ok oi =>
        rw [h4] at h
        simp only [ok_bind] at h
        cases h5 : f3.colIdxE "Item title" with
        | error e => rw [h5, error_bind] at h; cases h
        | ok ti =>
          rw [h5] at h
          simp only [ok_bind] at h
          cases h6 : (⟨f3.cols, backfillRows f3.rows oi ti⟩ : Frame).mapCol
              "Item title" fillDash with
          | error e => rw [h6, error_bind] at h; cases h
          | ok f5 =>
            rw [h6] at h
            simp only [ok_bind] at h
            cases h7 : applyFillDashCols genFillDashCols f5 with
            | error e => rw [h7, error_bind] at h; cases h
            | ok f6 =>
              rw [h7] at h
              simp only [ok_bind] at h
              cases h8 : addTotalFees f6 with
              | error e => rw [h8, error_bind] at h; cases h
              | ok f7 =>
                rw [h8] at h
                simp only [ok_bind] at h
                have hti := colIdxE_ok_inv _ _ _ h5
                have hwf1 : f1.WF := WF_mapColE f f1 _ _ hwf h1
                have hwf2 : (applyNumericCols f1).WF :=
                  WF_foldl_ifPresent coerceFill0 genNumericCols f1 hwf1
                have hwf3 : f3.WF := WF_mapCol _ f3 _ _ hwf2 h3
                have hwfb : (⟨f3.cols, backfillRows f3.rows oi ti⟩ : Frame).WF :=
                  WF_backfill f3 oi ti hwf3
                have hwf5 : f5.WF := WF_mapCol _ f5 _ _ hwfb h6
                have hwf6 : f6.WF :=
                  (applyFillDashCols_inv genFillDashCols f5 f6 h7).2.1 hwf5
                obtain ⟨hTF, hwf7, hcv7⟩ := addTotalFees_inv f6 f7 hwf6 h8
                have hc1 : f1.cols = f.cols := mapColE_cols f f1 _ _ h1
                have hc2 : (applyNumericCols f1).cols = f.cols :=
                  (foldl_ifPresent_cols coerceFill0 genNumericCols f1).trans hc1
                have hc3 : f3.cols = f.cols :=
                  (mapCol_cols _ f3 _ _ h3).trans hc2
                have hc5 : f5.cols = f.cols :=
                  (mapCol_cols _ f5 _ _ h6).trans hc3
                have hc6 : f6.cols = f.cols :=
                  ((applyFillDashCols_inv genFillDashCols f5 f6 h7).1).trans hc5
                have hcg : g.cols = f7.cols := mapColE_cols f7 g _ _ h
                refine ⟨⟨?_, ?_⟩, ?_, ?_⟩
                · intro hmem
                  rw [hcg, hTF.1 (by rw [hc6]; exact hmem), hc6]
                · intro hnmem
                  rw [hcg, hTF.2 (by rw [hc6]; exact hnmem), hc6]
                · intro c2 hmem hnt
                  simp only [genTouchedCols, List.mem_cons, List.mem_append] at hnt
                  push_neg at hnt
                  obtain ⟨hne1, hne2, hne3, hne4, hne5⟩ := hnt
                  calc colVals g c2
                      = colVals f7 c2 :=
                        colVals_mapColE_ne f7 g _ c2 fmtDateCell h hne1
                    _ = colVals f6 c2 := hcv7 c2 (by rw [hc6]; exact hmem) hne3
                    _ = colVals f5 c2 :=
                        (applyFillDashCols_inv genFillDashCols f5 f6 h7).2.2 c2 hne5
                    _ = colVals ⟨f3.cols, backfillRows f3.rows oi ti⟩ c2 :=
                        colVals_mapCol_ne _ f5 "Item title" c2 fillDash h6 hne2
                    _ = colVals f3 c2 := colVals_backfill_ne f3 oi ti c2 hti hne2
                    _ = colVals (applyNumericCols f1) c2 :=
                        colVals_mapCol_ne _ f3 "Item title" c2 dropDash h3 hne2
                    _ = colVals f1 c2 :=
                        colVals_foldl_ifPresent_ne coerceFill0 genNumericCols f1 c2 hne4
                    _ = colVals f c2 :=
                        colVals_mapColE_ne f f1 "Order creation date" c2 _ h1 hne1
                · have hdisj : ∀ c ∈ genFillDashCols, c ∉ genNumericCols ∧
                      c ≠ "Order creation date" ∧ c ≠ "Item title" ∧
                      c ≠ "Total Fees" := by decide
                  have hnodup : genFillDashCols.Nodup := by decide
                  intro c hc
                  obtain ⟨hn1, hn2, hn3, hn4⟩ := hdisj c hc
                  obtain ⟨i5, hi5⟩ :=
                    applyFillDashCols_present genFillDashCols f5 f6 h7 c hc
                  have hmemf6 : c ∈ f6.cols := by
                    rw [(applyFillDashCols_inv genFillDashCols f5 f6 h7).1]
                    by_contra hcon
                    rw [(colIdx?_eq_none_iff f5.cols c).2 hcon] at hi5
                    cases hi5
                  calc colVals g c
                      = colVals f7 c :=
                        colVals_mapColE_ne f7 g _ c fmtDateCell h hn2
                    _ = colVals f6 c := hcv7 c hmemf6 hn4
                    _ = (colVals f5 c).map (List.map fillDash) :=
                        applyFillDashCols_fill genFillDashCols hnodup f5 f6 hwf5 h7 c hc
                    _ = (colVals ⟨f3.cols, backfillRows f3.rows oi ti⟩ c).map
                          (List.map fillDash) :=
                        congrArg (Option.map (List.map fillDash))
                          (colVals_mapCol_ne _ f5 "Item title" c fillDash h6 hn3)
                    _ = (colVals f3 c).map (List.map fillDash) :=
                        congrArg (Option.map (List.map fillDash))
                          (colVals_backfill_ne f3 oi ti c hti hn3)
                    _ = (colVals (applyNumericCols f1) c).map (List.map fillDash) :=
                        congrArg (Option.map (List.map fillDash))
                          (colVals_mapCol_ne _ f3 "Item title" c dropDash h3 hn3)
                    _ = (colVals f1 c).map (List.map fillDash) :=
                        congrArg (Option.map (List.map fillDash))
                          (colVals_foldl_ifPresent_ne coerceFill0 genNumericCols f1 c hn1)
                    _ = (colVals f c).map (List.map fillDash) :=
                        congrArg (Option.map (List.map fillDash))
                          (colVals_mapColE_ne f f1 "Order creation date" c _ h1 hn2)

/-- Counterexample for C4 as claimed: on the concrete ledger `cf4` the
normalizer turns the absent `Buyer name` metadata cell into the string
`'--'` and appends a new `Total Fees` column, so a non-title, non-monetary
field changes value and a column beyond the input header appears. -/
theorem gen_normalize_changes_metadata :
    genNormalize isoDate cf4 = Except.ok gOut4 ∧
    colVals cf4 "Buyer name" = some [Cell.absent] ∧
    colVals gOut4 "Buyer name" = some [Cell.str "--"] ∧
    gOut4.cols ≠ cf4.cols ∧
    "Total Fees" ∉ cf4.cols ∧ "Total Fees" ∈ gOut4.cols := by
  decide

/-- Witness for C4: the frame condition instantiated at the concrete
ledger `cf4` and its normalized output `gOut4`. -/
theorem gen_normalize_frame_condition_witness :
    cf4.WF ∧ genNormalize isoDate cf4 = Except.ok gOut4 ∧
    ((("Total Fees" ∈ cf4.cols → gOut4.cols = cf4.cols) ∧
      ("Total Fees" ∉ cf4.cols → gOut4.cols = cf4.cols ++ ["Total Fees"])) ∧
     (∀ c2, c2 ∈ cf4.cols → c2 ∉ genTouchedCols →
       colVals gOut4 c2 = colVals cf4 c2) ∧
     (∀ c ∈ genFillDashCols,
       colVals gOut4 c = (colVals cf4 c).map (List.map fillDash))) :=
  ⟨by decide, by decide,
    gen_normalize_frame_condition isoDate cf4 gOut4 (by decide) (by decide)⟩
